import Mathlib

/-!
Verification development for the nengo-spa core: a symbolic pointer algebra,
vocabularies with a populate mini-language, cross-vocabulary casting
(reinterpret / translate), an expression compiler lowering a typed AST to a
dataflow graph, and an action-selection compiler.  The repository ships only
documentation for the core, so every definition below is a shallow embedding
modelled from the specification (and the behaviour exhibited in the shipped
notebooks), as indicated in each doc comment.
-/

namespace NengoSpa

/-- Modelled from the spec: the symbolic value of a semantic pointer held by a
vocabulary.  Random generation is represented by a seed token, explicit vectors
by their rational coefficients, and the algebraic operations (superposition,
binding, scaling, approximate inversion) together with the `normalized()` and
`unitary()` transforms build composite values. -/
inductive PtrVal where
  | gen (seed : Nat)
  | raw (v : List ℚ)
  | sup (a b : PtrVal)
  | bindV (a b : PtrVal)
  | scale (c : ℚ) (a : PtrVal)
  | approxInv (a : PtrVal)
  | normalized (a : PtrVal)
  | unitary (a : PtrVal)
  deriving DecidableEq

/-- Modelled from the spec: a Vocabulary is a dimension, a strictness flag, a
maximum-pairwise-similarity threshold, an insertion-ordered mapping of unique
names to pointers, and a seeded generator state.  The `vid` field models Python
object identity: two vocabulary objects created independently carry distinct
`vid`s even when dimension and entries agree. -/
structure Vocab where
  vid : Nat
  dim : Nat
  strict : Bool
  maxSimilarity : ℚ
  entries : List (String × PtrVal)
  genState : Nat
  deriving DecidableEq

/-- Modelled from the spec: the error taxonomy of §7. -/
inductive SpaError where
  | parseError (pos : Nat)
  | unknownPointer (name : String)
  | undefinedKey (name : String)
  | vocabularyMismatch (v1 v2 : Vocab)
  | scalarTypeError
  | dimensionMismatch (d1 d2 : Nat)
  | missingKeys (ks : List String)
  | duplicateKey (k : String)
  | duplicateName (n : String)
  | duplicateSinkInRule (s : Nat)
  | emptyActionSelection
  | zeroVector
  deriving DecidableEq

/-- Insertion-ordered list of the names defined in a vocabulary. -/
def Vocab.keys (v : Vocab) : List String :=
  v.entries.map Prod.fst

/-- Look a name up in a vocabulary (first match in insertion order). -/
def Vocab.find (v : Vocab) (name : String) : Option PtrVal :=
  v.entries.lookup name

/-- Membership test for a name in a vocabulary. -/
def Vocab.hasKey (v : Vocab) (name : String) : Bool :=
  v.entries.any (fun e => e.fst == name)

/-- Modelled from the spec: `add(name, pointer)` inserts explicitly, with no
similarity check, and fails with `DuplicateKeyError` when the name exists
(no silent overwrite). -/
def addPtr (v : Vocab) (name : String) (p : PtrVal) : Except SpaError Vocab :=
  if v.hasKey name then .error (.duplicateKey name)
  else .ok { v with entries := v.entries ++ [(name, p)] }

/-- Modelled from the spec: the normal generation policy of a vocabulary adds a
freshly generated pointer under the given name and advances the seeded
generator state. -/
def generateInto (v : Vocab) (name : String) : Vocab :=
  { v with entries := v.entries ++ [(name, PtrVal.gen v.genState)],
           genState := v.genState + 1 }

/-- Modelled from the spec: a vector value together with the vocabulary it is
currently typed in; the payload of a node flowing through a cast. -/
structure PointerState where
  vocab : Vocab
  data : List ℚ
  deriving DecidableEq

/-- Modelled from the spec: `reinterpret(node, target_vocab)` requires
`dim(node.type) == dim(target_vocab)`, else `DimensionMismatchError`; on
success it is a pure relabeling leaving the underlying vector unchanged. -/
def reinterpretV (x : PointerState) (target : Vocab) : Except SpaError PointerState :=
  if x.vocab.dim = target.dim then .ok { vocab := target, data := x.data }
  else .error (.dimensionMismatch x.vocab.dim target.dim)

/-- Keys of the source vocabulary that are absent from the target. -/
def missingFrom (src tgt : Vocab) : List String :=
  src.keys.filter (fun k => !(tgt.hasKey k))

/-- Keys present in both vocabularies, in the source's insertion order. -/
def sharedKeys (src tgt : Vocab) : List String :=
  src.keys.filter (fun k => tgt.hasKey k)

/-- Modelled from the spec: the translate transform is the sum of the outer
products `target[key] ⊗ source[key]` over the listed keys; it is represented
symbolically as the ordered list of those pairs. -/
def outerProductSum (src tgt : Vocab) (ks : List String) : List (PtrVal × PtrVal) :=
  ks.filterMap (fun k =>
    match tgt.find k, src.find k with
    | some tp, some sp => some (tp, sp)
    | _, _ => none)

/-- Modelled from the spec: `translate(node, target_vocab, populate)` requires
the target to contain every key of the source.  If keys are missing: with
`populate = true` they are added to the target via its normal generation policy
and the transform is then built; with `populate = false` a strict target fails
with `MissingKeysError` while a non-strict target proceeds on the intersecting
keys and emits a non-fatal warning.  The result is the transform outcome, the
(possibly mutated) target vocabulary, and the warning flag. -/
def translateV (src tgt : Vocab) (pop : Bool) :
    Except SpaError (List (PtrVal × PtrVal)) × Vocab × Bool :=
  if (missingFrom src tgt).isEmpty then
    (.ok (outerProductSum src tgt src.keys), tgt, false)
  else if pop then
    (.ok (outerProductSum src ((missingFrom src tgt).foldl generateInto tgt) src.keys),
     (missingFrom src tgt).foldl generateInto tgt, false)
  else if tgt.strict then
    (.error (.missingKeys (missingFrom src tgt)), tgt, false)
  else
    (.ok (outerProductSum src tgt (sharedKeys src tgt)), tgt, true)

/-- Token of the populate mini-language and of semantic pointer expressions. -/
inductive PopToken where
  | nameTok (s : String)
  | numTok (q : ℚ)
  | plusTok
  | minusTok
  | starTok
  | tildeTok
  | lparenTok
  | rparenTok
  | assignTok
  | semiTok
  | normalizedTok
  | unitaryTok
  deriving DecidableEq

/-- Characters allowed inside an identifier after its leading letter. -/
def isNameChar (c : Char) : Bool :=
  c.isAlpha || c.isDigit || c == '_'

/-- Natural number denoted by a list of decimal digits. -/
def digitsToNat (ds : List Char) : Nat :=
  ds.foldl (fun acc c => 10 * acc + (c.toNat - '0'.toNat)) 0

/-- Rational denoted by an integer digit string and a fractional digit string. -/
def ratOfParts (intPart fracPart : List Char) : ℚ :=
  (digitsToNat intPart : ℚ) + (digitsToNat fracPart : ℚ) / ((10 : ℚ) ^ fracPart.length)

/-- Modelled from the spec: tokenizer for the populate mini-language and the
expression grammar (§6): identifiers, numeric literals, `+ - * ~`, parentheses,
`=`, `;`, and the postfix transforms `.normalized()` and `.unitary()`.
Malformed text fails with `ParseError` carrying a position (here: the distance
from the end of the input). -/
def tokenizeAux : Nat → List Char → Except SpaError (List PopToken)
  | _, [] => .ok []
  | 0, _ :: _ => .error (.parseError 0)
  | fuel + 1, c :: cs =>
    if c == ' ' || c == '\n' || c == '\t' || c == '\r' then tokenizeAux fuel cs
    else if c == '+' then do pure (.plusTok :: (← tokenizeAux fuel cs))
    else if c == '-' then do pure (.minusTok :: (← tokenizeAux fuel cs))
    else if c == '*' then do pure (.starTok :: (← tokenizeAux fuel cs))
    else if c == '~' then do pure (.tildeTok :: (← tokenizeAux fuel cs))
    else if c == '(' then do pure (.lparenTok :: (← tokenizeAux fuel cs))
    else if c == ')' then do pure (.rparenTok :: (← tokenizeAux fuel cs))
    else if c == '=' then do pure (.assignTok :: (← tokenizeAux fuel cs))
    else if c == ';' then do pure (.semiTok :: (← tokenizeAux fuel cs))
    else if c == '.' then
      if "normalized()".toList.isPrefixOf cs then do
        pure (.normalizedTok :: (← tokenizeAux fuel (cs.drop 12)))
      else if "unitary()".toList.isPrefixOf cs then do
        pure (.unitaryTok :: (← tokenizeAux fuel (cs.drop 9)))
      else .error (.parseError cs.length)
    else if c.isDigit then
      match (c :: cs).dropWhile Char.isDigit with
      | '.' :: d :: ds =>
        if d.isDigit then do
          pure (.numTok (ratOfParts ((c :: cs).takeWhile Char.isDigit)
              ((d :: ds).takeWhile Char.isDigit)) ::
            (← tokenizeAux fuel ((d :: ds).dropWhile Char.isDigit)))
        else do
          pure (.numTok (digitsToNat ((c :: cs).takeWhile Char.isDigit) : ℚ) ::
            (← tokenizeAux fuel ('.' :: d :: ds)))
      | rest => do
        pure (.numTok (digitsToNat ((c :: cs).takeWhile Char.isDigit) : ℚ) ::
          (← tokenizeAux fuel rest))
    else if c.isAlpha then do
      pure (.nameTok (String.mk ((c :: cs).takeWhile isNameChar)) ::
        (← tokenizeAux fuel ((c :: cs).dropWhile isNameChar)))
    else .error (.parseError (c :: cs).length)

/-- Tokenize a populate specification string. -/
def tokenize (s : String) : Except SpaError (List PopToken) :=
  tokenizeAux s.toList.length s.toList

/-- Parsed semantic pointer expression of the populate mini-language. -/
inductive PExpr where
  | ident (s : String)
  | lit (q : ℚ)
  | sumE (a b : PExpr)
  | diffE (a b : PExpr)
  | mulE (a b : PExpr)
  | invE (a : PExpr)
  | normE (a : PExpr)
  | unitE (a : PExpr)
  deriving DecidableEq

mutual

/-- Modelled from the spec: sum level of the expression grammar
(`+ -`, left-associative, lowest precedence). -/
def pExpr : Nat → List PopToken → Except SpaError (PExpr × List PopToken)
  | 0, _ => .error (.parseError 0)
  | fuel + 1, ts => do
    let (a, ts1) ← pTerm fuel ts
    pExprTail fuel a ts1

/-- Left-associative continuation of the sum level. -/
def pExprTail : Nat → PExpr → List PopToken → Except SpaError (PExpr × List PopToken)
  | 0, _, _ => .error (.parseError 0)
  | fuel + 1, acc, .plusTok :: ts => do
    let (b, ts1) ← pTerm fuel ts
    pExprTail fuel (.sumE acc b) ts1
  | fuel + 1, acc, .minusTok :: ts => do
    let (b, ts1) ← pTerm fuel ts
    pExprTail fuel (.diffE acc b) ts1
  | _ + 1, acc, ts => .ok (acc, ts)

/-- Product level of the expression grammar (`*`). -/
def pTerm : Nat → List PopToken → Except SpaError (PExpr × List PopToken)
  | 0, _ => .error (.parseError 0)
  | fuel + 1, ts => do
    let (a, ts1) ← pFactor fuel ts
    pTermTail fuel a ts1

/-- Left-associative continuation of the product level. -/
def pTermTail : Nat → PExpr → List PopToken → Except SpaError (PExpr × List PopToken)
  | 0, _, _ => .error (.parseError 0)
  | fuel + 1, acc, .starTok :: ts => do
    let (b, ts1) ← pFactor fuel ts
    pTermTail fuel (.mulE acc b) ts1
  | _ + 1, acc, ts => .ok (acc, ts)

/-- Unary level: prefix approximate inversion `~`. -/
def pFactor : Nat → List PopToken → Except SpaError (PExpr × List PopToken)
  | 0, _ => .error (.parseError 0)
  | fuel + 1, .tildeTok :: ts => do
    let (a, ts1) ← pFactor fuel ts
    .ok (.invE a, ts1)
  | fuel + 1, ts => do
    let (a, ts1) ← pAtom fuel ts
    pTransformTail fuel a ts1

/-- Postfix transform chain `.normalized()` / `.unitary()` on an atom. -/
def pTransformTail : Nat → PExpr → List PopToken → Except SpaError (PExpr × List PopToken)
  | 0, _, _ => .error (.parseError 0)
  | fuel + 1, acc, .normalizedTok :: ts => pTransformTail fuel (.normE acc) ts
  | fuel + 1, acc, .unitaryTok :: ts => pTransformTail fuel (.unitE acc) ts
  | _ + 1, acc, ts => .ok (acc, ts)

/-- Atom level: identifier, numeric literal, or parenthesized expression. -/
def pAtom : Nat → List PopToken → Except SpaError (PExpr × List PopToken)
  | 0, _ => .error (.parseError 0)
  | _ + 1, .nameTok s :: ts => .ok (.ident s, ts)
  | _ + 1, .numTok q :: ts => .ok (.lit q, ts)
  | fuel + 1, .lparenTok :: ts => do
    let (a, ts1) ← pExpr fuel ts
    match ts1 with
    | .rparenTok :: ts2 => .ok (a, ts2)
    | l => .error (.parseError l.length)
  | _ + 1, l => .error (.parseError l.length)

end

/-- The `.normalized()` and `.unitary()` transforms of the mini-language. -/
inductive PtrTransform where
  | normalizedT
  | unitaryT
  deriving DecidableEq

/-- An entry of the populate mini-language: a bare name with an optional
transform chain (generating a fresh pointer), or an assignment of an
expression to a name. -/
inductive PopEntry where
  | bare (name : String) (ts : List PtrTransform)
  | assign (name : String) (rhs : PExpr)
  deriving DecidableEq

/-- Interpret a token tail as a chain of transform tokens. -/
def transformsOf : List PopToken → Option (List PtrTransform)
  | [] => some []
  | .normalizedTok :: r => (transformsOf r).map (PtrTransform.normalizedT :: ·)
  | .unitaryTok :: r => (transformsOf r).map (PtrTransform.unitaryT :: ·)
  | _ => none

/-- Modelled from the spec: (grammar of §6, extended per the shipped notebook
examples) one populate entry is a bare `NAME` with an optional transform
chain, or `NAME = expr` where the right-hand side may itself carry postfix
transforms, as in `UNITARY2 = (SQUARE * CIRCLE).unitary()`. -/
def parseEntryToks (ts : List PopToken) : Except SpaError PopEntry :=
  match ts with
  | .nameTok n :: .assignTok :: rest =>
    match pExpr (4 * rest.length + 8) rest with
    | .ok (e, []) => .ok (.assign n e)
    | .ok (_, l) => .error (.parseError l.length)
    | .error e => .error e
  | .nameTok n :: rest =>
    match transformsOf rest with
    | some trs => .ok (.bare n trs)
    | none => .error (.parseError rest.length)
  | l => .error (.parseError l.length)

/-- Split a token list on `;` separators. -/
def splitSemis : List PopToken → List (List PopToken)
  | [] => [[]]
  | .semiTok :: r => [] :: splitSemis r
  | t :: r =>
    match splitSemis r with
    | [] => [[t]]
    | g :: gs => (t :: g) :: gs

/-- Parse a full populate specification into its entries. -/
def parsePopulate (s : String) : Except SpaError (List PopEntry) := do
  let toks ← tokenize s
  (splitSemis toks).mapM parseEntryToks

/-- Value of an expression of the mini-language: a scalar or a pointer. -/
inductive EvalVal where
  | scalarV (q : ℚ)
  | ptrV (p : PtrVal)
  deriving DecidableEq

/-- Apply one postfix transform to a pointer value. -/
def applyTransform (p : PtrVal) (t : PtrTransform) : PtrVal :=
  match t with
  | .normalizedT => .normalized p
  | .unitaryT => .unitary p

/-- Modelled from the spec: evaluate a right-hand-side expression against the
names already defined in the vocabulary; a reference to an undefined (or
forward) name fails with `UndefinedKeyError`. -/
def evalPExpr (v : Vocab) : PExpr → Except SpaError EvalVal
  | .ident s =>
    match v.find s with
    | some p => .ok (.ptrV p)
    | none => .error (.undefinedKey s)
  | .lit q => .ok (.scalarV q)
  | .sumE a b => do
    match (← evalPExpr v a), (← evalPExpr v b) with
    | .ptrV p, .ptrV q => .ok (.ptrV (.sup p q))
    | .scalarV p, .scalarV q => .ok (.scalarV (p + q))
    | _, _ => .error .scalarTypeError
  | .diffE a b => do
    match (← evalPExpr v a), (← evalPExpr v b) with
    | .ptrV p, .ptrV q => .ok (.ptrV (.sup p (.scale (-1) q)))
    | .scalarV p, .scalarV q => .ok (.scalarV (p - q))
    | _, _ => .error .scalarTypeError
  | .mulE a b => do
    match (← evalPExpr v a), (← evalPExpr v b) with
    | .ptrV p, .ptrV q => .ok (.ptrV (.bindV p q))
    | .scalarV c, .ptrV q => .ok (.ptrV (.scale c q))
    | .ptrV p, .scalarV c => .ok (.ptrV (.scale c p))
    | .scalarV p, .scalarV q => .ok (.scalarV (p * q))
  | .invE a => do
    match (← evalPExpr v a) with
    | .ptrV p => .ok (.ptrV (.approxInv p))
    | .scalarV _ => .error .scalarTypeError
  | .normE a => do
    match (← evalPExpr v a) with
    | .ptrV p => .ok (.ptrV (.normalized p))
    | .scalarV _ => .error .scalarTypeError
  | .unitE a => do
    match (← evalPExpr v a) with
    | .ptrV p => .ok (.ptrV (.unitary p))
    | .scalarV _ => .error .scalarTypeError

/-- Modelled from the spec: process one populate entry.  A bare `NAME`
generates a fresh pointer via the generation policy, applies its transform
chain and inserts it; an assignment evaluates its right-hand side and inserts
the resulting pointer.  Insertion rejects duplicates. -/
def processEntry (v : Vocab) : PopEntry → Except SpaError Vocab
  | .bare n trs =>
    addPtr { v with genState := v.genState + 1 } n
      (trs.foldl applyTransform (PtrVal.gen v.genState))
  | .assign n e => do
    match ← evalPExpr v e with
    | .ptrV p => addPtr v n p
    | .scalarV _ => .error .scalarTypeError

/-- Process a list of populate entries from left to right. -/
def processEntries (v : Vocab) : List PopEntry → Except SpaError Vocab
  | [] => .ok v
  | e :: es => do processEntries (← processEntry v e) es

/-- Modelled from the spec: `populate(spec)` parses the `;`-separated entry
list and processes the entries in order against the vocabulary. -/
def populateV (v : Vocab) (s : String) : Except SpaError Vocab := do
  let es ← parsePopulate s
  processEntries v es

/-- Modelled from the spec: the resolved type of an expression after type
inference — a specific Vocabulary, or `Scalar`. -/
inductive SpaType where
  | scalarT
  | vecT (v : Vocab)
  deriving DecidableEq

/-- Modelled from the spec: expression AST.  Each node carries a `nid`
modelling Python object identity (two independently constructed nodes carry
distinct `nid`s, a re-used object keeps its `nid`); graph sharing during
lowering is keyed on it.  `port` is an external typed port (a module such as a
`State`), `symbolN` a `spa.sym` atom resolved in a vocabulary, `scalarN` a
numeric literal. -/
inductive Node where
  | port (nid : Nat) (v : Vocab)
  | symbolN (nid : Nat) (name : String) (v : Vocab)
  | scalarN (nid : Nat) (c : ℚ)
  | sumN (nid : Nat) (a b : Node)
  | productN (nid : Nat) (a b : Node)
  | invertN (nid : Nat) (a : Node)
  | dotN (nid : Nat) (a b : Node)
  | reinterpretN (nid : Nat) (a : Node) (target : Vocab)
  | translateN (nid : Nat) (a : Node) (target : Vocab)
  deriving DecidableEq

/-- Object identity token of a node. -/
def Node.nid : Node → Nat
  | .port i _ => i
  | .symbolN i _ _ => i
  | .scalarN i _ => i
  | .sumN i _ _ => i
  | .productN i _ _ => i
  | .invertN i _ => i
  | .dotN i _ _ => i
  | .reinterpretN i _ _ => i
  | .translateN i _ _ => i

/-- All object identity tokens occurring in a node. -/
def Node.nids : Node → List Nat
  | .port i _ => [i]
  | .symbolN i _ _ => [i]
  | .scalarN i _ => [i]
  | .sumN i a b => i :: (a.nids ++ b.nids)
  | .productN i a b => i :: (a.nids ++ b.nids)
  | .invertN i a => i :: a.nids
  | .dotN i a b => i :: (a.nids ++ b.nids)
  | .reinterpretN i a _ => i :: a.nids
  | .translateN i a _ => i :: a.nids

/-- Address consistency of a tree of heap objects: no node reuses the identity
token of one of its strict subnodes (in Python a live object cannot be a strict
subobject of itself). -/
def Node.idsOk : Node → Bool
  | .port _ _ => true
  | .symbolN _ _ _ => true
  | .scalarN _ _ => true
  | .sumN i a b => decide (i ∉ a.nids ++ b.nids) && (a.idsOk && b.idsOk)
  | .productN i a b => decide (i ∉ a.nids ++ b.nids) && (a.idsOk && b.idsOk)
  | .invertN i a => decide (i ∉ a.nids) && a.idsOk
  | .dotN i a b => decide (i ∉ a.nids ++ b.nids) && (a.idsOk && b.idsOk)
  | .reinterpretN i a _ => decide (i ∉ a.nids) && a.idsOk
  | .translateN i a _ => decide (i ∉ a.nids) && a.idsOk

/-- Erase identity tokens, keeping only the structural (textual) content. -/
def Node.eraseIds : Node → Node
  | .port _ v => .port 0 v
  | .symbolN _ s v => .symbolN 0 s v
  | .scalarN _ c => .scalarN 0 c
  | .sumN _ a b => .sumN 0 a.eraseIds b.eraseIds
  | .productN _ a b => .productN 0 a.eraseIds b.eraseIds
  | .invertN _ a => .invertN 0 a.eraseIds
  | .dotN _ a b => .dotN 0 a.eraseIds b.eraseIds
  | .reinterpretN _ a t => .reinterpretN 0 a.eraseIds t
  | .translateN _ a t => .translateN 0 a.eraseIds t

/-- Modelled from the spec: bottom-up type inference (§4.4).  `Sum`, `Product`
and `DotProduct` with two vector operands require the operands to carry the
same Vocabulary object, not merely one of equal dimension; a mismatch fails
with `VocabularyMismatchError` naming both vocabularies.  A `Product` with
exactly one scalar operand keeps the other operand's vector type.  `Invert`
requires a vector operand and keeps its vocabulary.  The casts retype their
operand to the target vocabulary (`reinterpret` additionally checks the
dimensions). -/
def inferType : Node → Except SpaError SpaType
  | .port _ v => .ok (.vecT v)
  | .symbolN _ _ v => .ok (.vecT v)
  | .scalarN _ _ => .ok .scalarT
  | .sumN _ a b => do
    match (← inferType a), (← inferType b) with
    | .vecT v1, .vecT v2 =>
      if v1 = v2 then .ok (.vecT v1) else .error (.vocabularyMismatch v1 v2)
    | .scalarT, .scalarT => .ok .scalarT
    | _, _ => .error .scalarTypeError
  | .productN _ a b => do
    match (← inferType a), (← inferType b) with
    | .vecT v1, .vecT v2 =>
      if v1 = v2 then .ok (.vecT v1) else .error (.vocabularyMismatch v1 v2)
    | .scalarT, .vecT v => .ok (.vecT v)
    | .vecT v, .scalarT => .ok (.vecT v)
    | .scalarT, .scalarT => .ok .scalarT
  | .invertN _ a => do
    match ← inferType a with
    | .vecT v => .ok (.vecT v)
    | .scalarT => .error .scalarTypeError
  | .dotN _ a b => do
    match (← inferType a), (← inferType b) with
    | .vecT v1, .vecT v2 =>
      if v1 = v2 then .ok .scalarT else .error (.vocabularyMismatch v1 v2)
    | _, _ => .error .scalarTypeError
  | .reinterpretN _ a tgt => do
    match ← inferType a with
    | .vecT v =>
      if v.dim = tgt.dim then .ok (.vecT tgt) else .error (.dimensionMismatch v.dim tgt.dim)
    | .scalarT => .error .scalarTypeError
  | .translateN _ a tgt => do
    match ← inferType a with
    | .vecT _ => .ok (.vecT tgt)
    | .scalarT => .error .scalarTypeError

/-- Operator tag of a graph fragment. -/
inductive FragOp where
  | portOp (v : Vocab)
  | symbolOp (name : String) (v : Vocab)
  | scalarOp (c : ℚ)
  | sumOp
  | productOp
  | invertOp
  | dotOp
  | reinterpretOp (target : Vocab)
  | translateOp (target : Vocab)
  deriving DecidableEq

/-- One operator node of the compiled dataflow graph: its output port, the
identity token of the AST node it was lowered from, its operator tag, and its
input ports. -/
structure Frag where
  port : Nat
  producerNid : Nat
  op : FragOp
  inputs : List Nat
  deriving DecidableEq

/-- Lowering state: the memo table from AST object identities to output ports,
the fragments emitted so far, and the next free port number. -/
structure LState where
  memo : List (Nat × Nat)
  frags : List Frag
  next : Nat
  deriving DecidableEq

/-- The empty lowering state. -/
def initLState : LState := { memo := [], frags := [], next := 0 }

/-- Emit a fresh fragment for the AST node with identity `nid` and record it in
the memo table. -/
def emit (st : LState) (nid : Nat) (op : FragOp) (ins : List Nat) : Nat × LState :=
  (st.next,
   { memo := st.memo ++ [(nid, st.next)],
     frags := st.frags ++ [{ port := st.next, producerNid := nid, op := op, inputs := ins }],
     next := st.next + 1 })

/-- Modelled from the spec: lowering of an AST to graph fragments.  A node
already recorded in the memo table (the same object lowered before) is reused
— one shared fragment wired to every consumer; otherwise the children are
lowered and one fresh fragment is emitted.  Sharing is keyed on object
identity, never on structural equality. -/
def lower : Node → LState → Nat × LState
  | .port nid v, st =>
    match st.memo.lookup nid with
    | some p => (p, st)
    | none => emit st nid (.portOp v) []
  | .symbolN nid s v, st =>
    match st.memo.lookup nid with
    | some p => (p, st)
    | none => emit st nid (.symbolOp s v) []
  | .scalarN nid c, st =>
    match st.memo.lookup nid with
    | some p => (p, st)
    | none => emit st nid (.scalarOp c) []
  | .sumN nid a b, st =>
    match st.memo.lookup nid with
    | some p => (p, st)
    | none =>
      emit (lower b (lower a st).2).2 nid .sumOp [(lower a st).1, (lower b (lower a st).2).1]
  | .productN nid a b, st =>
    match st.memo.lookup nid with
    | some p => (p, st)
    | none =>
      emit (lower b (lower a st).2).2 nid .productOp [(lower a st).1, (lower b (lower a st).2).1]
  | .invertN nid a, st =>
    match st.memo.lookup nid with
    | some p => (p, st)
    | none => emit (lower a st).2 nid .invertOp [(lower a st).1]
  | .dotN nid a b, st =>
    match st.memo.lookup nid with
    | some p => (p, st)
    | none =>
      emit (lower b (lower a st).2).2 nid .dotOp [(lower a st).1, (lower b (lower a st).2).1]
  | .reinterpretN nid a tgt, st =>
    match st.memo.lookup nid with
    | some p => (p, st)
    | none => emit (lower a st).2 nid (.reinterpretOp tgt) [(lower a st).1]
  | .translateN nid a tgt, st =>
    match st.memo.lookup nid with
    | some p => (p, st)
    | none => emit (lower a st).2 nid (.translateOp tgt) [(lower a st).1]

/-- One lowering step extends the state: fragments and memo entries are
appended in sync, new memo keys stay within the given identity list, new ports
are fresh, the port counter grows, port bounds are preserved, and distinctness
of memo keys is preserved. -/
def Extends (idList : List Nat) (st st' : LState) : Prop :=
  (∃ nf nm,
    st'.frags = st.frags ++ nf ∧
    st'.memo = st.memo ++ nm ∧
    nf.map Frag.producerNid = nm.map Prod.fst ∧
    (∀ e ∈ nm, e.1 ∈ idList) ∧
    (∀ e ∈ nm, st.next ≤ e.2)) ∧
  st.next ≤ st'.next ∧
  ((∀ e ∈ st.memo, e.2 < st.next) → (∀ e ∈ st'.memo, e.2 < st'.next)) ∧
  ((st.memo.map Prod.fst).Nodup → (st'.memo.map Prod.fst).Nodup)

/-- Correctness pack of one lowering call: the state is extended within the
node's identity list, the root is registered in the memo at the returned port,
the returned port is in range, and a fresh root obtains a fresh port. -/
def SpecPack (n : Node) (st : LState) : Prop :=
  Extends n.nids st (lower n st).2 ∧
  (lower n st).2.memo.lookup n.nid = some (lower n st).1 ∧
  ((∀ e ∈ st.memo, e.2 < st.next) → (lower n st).1 < (lower n st).2.next) ∧
  (st.memo.lookup n.nid = none → st.next ≤ (lower n st).1)

/-- A typed sink (an input of a module) with its declared vocabulary. -/
structure Sink where
  sid : Nat
  vocab : Vocab
  deriving DecidableEq

/-- A builder statement: route an expression into a sink (`expr >> sink`). -/
inductive Stmt where
  | route (e : Node) (s : Sink)
  deriving DecidableEq

/-- The builder context: the lowering state of the growing graph and the
sink-assignment edges issued so far. -/
structure Builder where
  lstate : LState
  edges : List (Nat × Nat)
  deriving DecidableEq

/-- The empty builder context. -/
def initBuilder : Builder := { lstate := initLState, edges := [] }

/-- Modelled from the spec: issue one statement against the builder.  The
statement is validated eagerly — the expression is type checked and its type
compared with the sink's declared vocabulary — and only on success is the
expression lowered and the new fragments and edge appended; a failing
statement reports its error and leaves the builder untouched. -/
def issueStmt (b : Builder) (st : Stmt) : Builder × Option SpaError :=
  match st with
  | .route e s =>
    match inferType e with
    | .error err => (b, some err)
    | .ok .scalarT => (b, some .scalarTypeError)
    | .ok (.vecT v) =>
      if v = s.vocab then
        ({ lstate := (lower e b.lstate).2,
           edges := b.edges ++ [((lower e b.lstate).1, s.sid)] }, none)
      else (b, some (.vocabularyMismatch v s.vocab))

/-- Modelled from the spec: one action rule of an `ActionSelection` — an
optional explicit name, a (constant) utility, and `(sink, effect)` pairs. -/
structure ARule where
  rname : Option String
  utility : ℚ
  effects : List (Nat × List ℚ)
  deriving DecidableEq

/-- The explicitly given rule names, in registration order. -/
def explicitNames (rules : List ARule) : List String :=
  rules.filterMap (fun r => r.rname)

/-- First name appearing twice in the list (defaulting when there is none). -/
def firstDupName : List String → String
  | [] => ""
  | x :: xs => if x ∈ xs then x else firstDupName xs

/-- Sequential placeholder name assigned to unnamed rules. -/
def autoName (i : Nat) : String :=
  "action_" ++ toString i

/-- Modelled from the spec: closing an `ActionSelection` (§4.5).  Zero rules is
`EmptyActionSelectionError`; duplicated explicit names are
`DuplicateNameError`; otherwise every rule receives its stable 0-based index in
registration order, unnamed rules being auto-named. -/
def closeSel (rules : List ARule) : Except SpaError (List (Nat × String × ARule)) :=
  if rules.isEmpty then .error .emptyActionSelection
  else if (explicitNames rules).Nodup then
    .ok (rules.enum.map (fun p => (p.1, p.2.rname.getD (autoName p.1), p.2)))
  else .error (.duplicateName (firstDupName (explicitNames rules)))

/-- Scale a vector by a scalar. -/
def vscale (c : ℚ) (v : List ℚ) : List ℚ :=
  v.map (fun x => c * x)

/-- Elementwise sum of two vectors of equal length. -/
def vadd (a b : List ℚ) : List ℚ :=
  List.zipWith (fun x y => x + y) a b

/-- Similarity as the dot product (§4.1). -/
def vdot (a b : List ℚ) : ℚ :=
  (List.zipWith (fun x y => x * y) a b).sum

/-- Modelled from the spec: the gating signal of rule `i` produced by the
selector.  The dominance contract of §4.5 is modelled in its idealized limit:
the gate of the strictly maximal utility is `1` and every other gate is `0`;
the blend behaviour for near-tied utilities is substrate-dependent and is not
modelled. -/
def gateQ (utils : List ℚ) (i : Nat) : ℚ :=
  if ∀ j ∈ List.range utils.length, j = i ∨ utils.getD j 0 < utils.getD i 0 then 1 else 0

/-- Modelled from the spec: the combine node synthesized for a sink sums each
referencing rule's gate-scaled effect contribution. -/
def sinkOutput (rules : List ARule) (sid : Nat) (d : Nat) : List ℚ :=
  rules.enum.foldl
    (fun acc p =>
      match p.2.effects.lookup sid with
      | some eff => vadd acc (vscale (gateQ (rules.map (fun r => r.utility)) p.1) eff)
      | none => acc)
    (List.replicate d 0)

/-- Modelled from the spec: a real pointer of dimension `d` indexed by
`ZMod d`, with `bind` the circular convolution of the convolution algebra. -/
noncomputable def convBind (d : Nat) [NeZero d] (a b : ZMod d → ℝ) : ZMod d → ℝ :=
  fun k => ∑ i : ZMod d, a i * b (k - i)

/-- Modelled from the spec: `approximate_invert` for the convolution algebra;
index negation realizes the coefficient reversal `inv[0] = a[0]`,
`inv[i] = a[d - i]`. -/
def approxInvertPtr (d : Nat) (a : ZMod d → ℝ) : ZMod d → ℝ :=
  fun k => a (-k)

/-- Modelled from the spec: `identity_element(d)`, the unit impulse at
index 0. -/
def identityPtr (d : Nat) : ZMod d → ℝ :=
  fun k => if k = 0 then 1 else 0

/-- Evaluation of the pointer's coefficient polynomial at a complex point; at
the d-th roots of unity these are exactly the transform-domain (DFT)
coefficients of the pointer. -/
noncomputable def evalPtr (d : Nat) [NeZero d] (a : ZMod d → ℝ) (z : ℂ) : ℂ :=
  ∑ k : ZMod d, (a k : ℂ) * z ^ (ZMod.val k)

/-- Modelled from the spec: a pointer is unitary when every transform-domain
magnitude equals 1 (`make_unitary` rescales to exactly this set). -/
def IsUnitaryPtr (d : Nat) [NeZero d] (a : ZMod d → ℝ) : Prop :=
  ∀ z : ℂ, z ^ d = 1 → Complex.abs (evalPtr d a z) = 1

theorem hasKey_iff_mem_keys (v : Vocab) (name : String) :
    v.hasKey name = true ↔ name ∈ v.keys := by
  simp [Vocab.hasKey, Vocab.keys, List.any_eq_true, List.mem_map]

theorem generateInto_hasKey_mono (v : Vocab) (name k : String)
    (h : v.hasKey k = true) : (generateInto v name).hasKey k = true := by
  simp only [Vocab.hasKey, generateInto, List.any_append] at *
  simp [h]

theorem generateInto_hasKey_self (v : Vocab) (name : String) :
    (generateInto v name).hasKey name = true := by
  simp [Vocab.hasKey, generateInto, List.any_append]

theorem foldl_generateInto_hasKey (l : List String) (t : Vocab) (k : String)
    (h : t.hasKey k = true ∨ k ∈ l) : (l.foldl generateInto t).hasKey k = true := by
  induction l generalizing t with
  | nil =>
    rcases h with h | h
    · exact h
    · cases h
  | cons x xs ih =>
    rcases h with h | h
    · exact ih (generateInto t x) (Or.inl (generateInto_hasKey_mono t x k h))
    · rcases List.mem_cons.mp h with rfl | hx
      · exact ih (generateInto t k) (Or.inl (generateInto_hasKey_self t k))
      · exact ih (generateInto t x) (Or.inr hx)

/-- C2: for an expression typed in `V1`, `reinterpret` to an equal-dimension
vocabulary `V2` changes no vector bytes and `reinterpret(reinterpret(x, V2), V1)`
is bit-exact equal to `x`; `reinterpret` across unequal dimensions fails with
`DimensionMismatchError`. -/
theorem reinterpret_roundtrip_spec (x : PointerState) (V2 W : Vocab)
    (h2 : x.vocab.dim = V2.dim) (hW : x.vocab.dim ≠ W.dim) :
    reinterpretV x V2 = .ok { vocab := V2, data := x.data } ∧
    (reinterpretV x V2).bind (fun y => reinterpretV y x.vocab) = .ok x ∧
    reinterpretV x W = .error (.dimensionMismatch x.vocab.dim W.dim) := by
  have hb : reinterpretV x V2 = .ok { vocab := V2, data := x.data } := by
    simp [reinterpretV, h2]
  refine ⟨hb, ?_, ?_⟩
  · rw [hb]
    show reinterpretV { vocab := V2, data := x.data } x.vocab = .ok x
    simp [reinterpretV, ← h2]
  · simp [reinterpretV, hW]

/-- Witness for C2 at concrete vocabularies of dimensions 3, 3 and 4. -/
theorem reinterpret_roundtrip_spec_witness :
    reinterpretV ⟨⟨0, 3, true, 1/10, [], 0⟩, [1, 2, 3]⟩ ⟨1, 3, true, 1/10, [], 0⟩ =
      .ok { vocab := ⟨1, 3, true, 1/10, [], 0⟩, data := [1, 2, 3] } ∧
    (reinterpretV ⟨⟨0, 3, true, 1/10, [], 0⟩, [1, 2, 3]⟩ ⟨1, 3, true, 1/10, [], 0⟩).bind
      (fun y => reinterpretV y (⟨0, 3, true, 1/10, [], 0⟩ : Vocab)) =
      .ok ⟨⟨0, 3, true, 1/10, [], 0⟩, [1, 2, 3]⟩ ∧
    reinterpretV ⟨⟨0, 3, true, 1/10, [], 0⟩, [1, 2, 3]⟩ ⟨2, 4, true, 1/10, [], 0⟩ =
      .error (.dimensionMismatch 3 4) :=
  reinterpret_roundtrip_spec ⟨⟨0, 3, true, 1/10, [], 0⟩, [1, 2, 3]⟩
    ⟨1, 3, true, 1/10, [], 0⟩ ⟨2, 4, true, 1/10, [], 0⟩ (by decide) (by decide)

/-- C3: when the source vocabulary contains a key absent from the target,
`translate` with a strict target and `populate = false` fails with
`MissingKeysError` leaving the target unchanged; with `populate = true` it
succeeds after adding the missing keys to the target via its generation policy,
so afterwards the target contains every source key; with a non-strict target
and `populate = false` it proceeds on the intersecting keys and raises the
non-fatal warning flag. -/
theorem translate_missing_keys_spec (src tgt : Vocab) (k : String)
    (hk : k ∈ src.keys) (hmiss : tgt.hasKey k = false) :
    (tgt.strict = true →
      translateV src tgt false = (.error (.missingKeys (missingFrom src tgt)), tgt, false)) ∧
    (translateV src tgt true =
      (.ok (outerProductSum src ((missingFrom src tgt).foldl generateInto tgt) src.keys),
       (missingFrom src tgt).foldl generateInto tgt, false) ∧
     ∀ k' ∈ src.keys, ((translateV src tgt true).2.1).hasKey k' = true) ∧
    (tgt.strict = false →
      translateV src tgt false = (.ok (outerProductSum src tgt (sharedKeys src tgt)), tgt, true)) := by
  have hmem : k ∈ missingFrom src tgt := by
    refine List.mem_filter.mpr ⟨hk, ?_⟩
    simp [hmiss]
  have hne : (missingFrom src tgt).isEmpty = false := by
    obtain ⟨a, l', h'⟩ := List.exists_cons_of_ne_nil (List.ne_nil_of_mem hmem)
    rw [h']
    rfl
  refine ⟨?_, ⟨?_, ?_⟩, ?_⟩
  · intro hstrict
    simp [translateV, hne, hstrict]
  · simp [translateV, hne]
  · intro k' hk'
    have heq : (translateV src tgt true).2.1 = (missingFrom src tgt).foldl generateInto tgt := by
      simp [translateV, hne]
    rw [heq]
    by_cases h : tgt.hasKey k' = true
    · exact foldl_generateInto_hasKey _ tgt k' (Or.inl h)
    · refine foldl_generateInto_hasKey _ tgt k' (Or.inr ?_)
      refine List.mem_filter.mpr ⟨hk', ?_⟩
      simp [Bool.not_eq_true] at h
      simp [h]
  · intro hstrict
    simp [translateV, hne, hstrict]

/-- Witness for C3: source with keys `A`, `B`; strict and non-strict targets
with key `A` only. -/
theorem translate_missing_keys_spec_witness :
    translateV ⟨0, 4, true, 1/10, [("A", PtrVal.gen 0), ("B", PtrVal.gen 1)], 2⟩
        ⟨1, 4, true, 1/10, [("A", PtrVal.gen 0)], 1⟩ false =
      (.error (.missingKeys (missingFrom
          ⟨0, 4, true, 1/10, [("A", PtrVal.gen 0), ("B", PtrVal.gen 1)], 2⟩
          ⟨1, 4, true, 1/10, [("A", PtrVal.gen 0)], 1⟩)),
       ⟨1, 4, true, 1/10, [("A", PtrVal.gen 0)], 1⟩, false) ∧
    (translateV ⟨0, 4, true, 1/10, [("A", PtrVal.gen 0), ("B", PtrVal.gen 1)], 2⟩
        ⟨1, 4, true, 1/10, [("A", PtrVal.gen 0)], 1⟩ true =
      (.ok (outerProductSum ⟨0, 4, true, 1/10, [("A", PtrVal.gen 0), ("B", PtrVal.gen 1)], 2⟩
         ((missingFrom ⟨0, 4, true, 1/10, [("A", PtrVal.gen 0), ("B", PtrVal.gen 1)], 2⟩
             ⟨1, 4, true, 1/10, [("A", PtrVal.gen 0)], 1⟩).foldl generateInto
           ⟨1, 4, true, 1/10, [("A", PtrVal.gen 0)], 1⟩)
         (Vocab.keys ⟨0, 4, true, 1/10, [("A", PtrVal.gen 0), ("B", PtrVal.gen 1)], 2⟩)),
       (missingFrom ⟨0, 4, true, 1/10, [("A", PtrVal.gen 0), ("B", PtrVal.gen 1)], 2⟩
           ⟨1, 4, true, 1/10, [("A", PtrVal.gen 0)], 1⟩).foldl generateInto
         ⟨1, 4, true, 1/10, [("A", PtrVal.gen 0)], 1⟩, false) ∧
     ∀ k' ∈ Vocab.keys ⟨0, 4, true, 1/10, [("A", PtrVal.gen 0), ("B", PtrVal.gen 1)], 2⟩,
       ((translateV ⟨0, 4, true, 1/10, [("A", PtrVal.gen 0), ("B", PtrVal.gen 1)], 2⟩
           ⟨1, 4, true, 1/10, [("A", PtrVal.gen 0)], 1⟩ true).2.1).hasKey k' = true) ∧
    translateV ⟨0, 4, true, 1/10, [("A", PtrVal.gen 0), ("B", PtrVal.gen 1)], 2⟩
        ⟨2, 4, false, 1/10, [("A", PtrVal.gen 0)], 1⟩ false =
      (.ok (outerProductSum ⟨0, 4, true, 1/10, [("A", PtrVal.gen 0), ("B", PtrVal.gen 1)], 2⟩
          ⟨2, 4, false, 1/10, [("A", PtrVal.gen 0)], 1⟩
          (sharedKeys ⟨0, 4, true, 1/10, [("A", PtrVal.gen 0), ("B", PtrVal.gen 1)], 2⟩
            ⟨2, 4, false, 1/10, [("A", PtrVal.gen 0)], 1⟩)),
       ⟨2, 4, false, 1/10, [("A", PtrVal.gen 0)], 1⟩, true) :=
  ⟨(translate_missing_keys_spec
      ⟨0, 4, true, 1/10, [("A", PtrVal.gen 0), ("B", PtrVal.gen 1)], 2⟩
      ⟨1, 4, true, 1/10, [("A", PtrVal.gen 0)], 1⟩ "B" (by decide) (by decide)).1 rfl,
   (translate_missing_keys_spec
      ⟨0, 4, true, 1/10, [("A", PtrVal.gen 0), ("B", PtrVal.gen 1)], 2⟩
      ⟨1, 4, true, 1/10, [("A", PtrVal.gen 0)], 1⟩ "B" (by decide) (by decide)).2.1,
   (translate_missing_keys_spec
      ⟨0, 4, true, 1/10, [("A", PtrVal.gen 0), ("B", PtrVal.gen 1)], 2⟩
      ⟨2, 4, false, 1/10, [("A", PtrVal.gen 0)], 1⟩ "B" (by decide) (by decide)).2.2 rfl⟩

theorem lookup_append_left {α β : Type} [BEq α] [LawfulBEq α]
    (l l' : List (α × β)) (k : α) (x : β)
    (h : l.lookup k = some x) : (l ++ l').lookup k = some x := by
  induction l with
  | nil => cases h
  | cons e es ih =>
    obtain ⟨a, b⟩ := e
    rw [List.cons_append]
    by_cases hek : k = a
    · subst hek
      simp [List.lookup_cons] at h ⊢
      exact h
    · simp only [List.lookup_cons, beq_false_of_ne hek] at h ⊢
      exact ih h

theorem lookup_append_none {α β : Type} [BEq α] [LawfulBEq α]
    (l l' : List (α × β)) (k : α)
    (h : l.lookup k = none) : (l ++ l').lookup k = l'.lookup k := by
  induction l with
  | nil => rfl
  | cons e es ih =>
    obtain ⟨a, b⟩ := e
    rw [List.cons_append]
    by_cases hek : k = a
    · subst hek
      simp [List.lookup_cons] at h
    · simp only [List.lookup_cons, beq_false_of_ne hek] at h ⊢
      exact ih h

theorem any_false_lookup_none {α β : Type} [BEq α] [LawfulBEq α]
    (l : List (α × β)) (k : α)
    (h : (l.any fun e => e.fst == k) = false) : l.lookup k = none := by
  induction l with
  | nil => rfl
  | cons e es ih =>
    obtain ⟨a, b⟩ := e
    rw [List.any_cons, Bool.or_eq_false_iff] at h
    have hka : k ≠ a := by
      intro hc
      subst hc
      simp at h
    simp only [List.lookup_cons, beq_false_of_ne hka]
    exact ih h.2

theorem hasKey_false_lookup_none (v : Vocab) (k : String)
    (h : v.hasKey k = false) : v.entries.lookup k = none :=
  any_false_lookup_none v.entries k h

theorem addPtr_ok (v v' : Vocab) (n : String) (p : PtrVal)
    (h : addPtr v n p = .ok v') :
    v.hasKey n = false ∧ v' = { v with entries := v.entries ++ [(n, p)] } := by
  rw [addPtr] at h
  split at h
  · cases h
  · next hfalse =>
    refine ⟨Bool.eq_false_iff.mpr hfalse, ?_⟩
    cases h
    rfl

theorem hasKey_append_self (v : Vocab) (n : String) (p : PtrVal) :
    ({ v with entries := v.entries ++ [(n, p)] } : Vocab).hasKey n = true := by
  simp [Vocab.hasKey, List.any_append]

theorem find_append_self (v : Vocab) (n : String) (p : PtrVal)
    (h : v.hasKey n = false) :
    ({ v with entries := v.entries ++ [(n, p)] } : Vocab).find n = some p := by
  show (v.entries ++ [(n, p)]).lookup n = some p
  rw [lookup_append_none _ _ _ (hasKey_false_lookup_none v n h)]
  simp [List.lookup]

theorem find_append_preserved (v : Vocab) (n k : String) (p x : PtrVal)
    (h : v.find k = some x) :
    ({ v with entries := v.entries ++ [(n, p)] } : Vocab).find k = some x := by
  show (v.entries ++ [(n, p)]).lookup k = some x
  exact lookup_append_left _ _ _ _ h

/-- C8: a second `populate('A')` on the same vocabulary fails with
`DuplicateKeyError` and is never silently ignored; `add` fails with
`DuplicateKeyError` whenever the name already exists, performing no silent
overwrite; and the pre-existing entries are unchanged by a successful
populate. -/
theorem populate_duplicate_spec (v v' : Vocab) (nm : String) (p : PtrVal)
    (hk : v.hasKey nm = true) (hpop : populateV v "A" = .ok v') :
    addPtr v nm p = .error (.duplicateKey nm) ∧
    populateV v' "A" = .error (.duplicateKey "A") ∧
    v'.hasKey "A" = true ∧
    ∀ k x, v.find k = some x → v'.find k = some x := by
  have hparse : parsePopulate "A" = .ok [PopEntry.bare "A" []] := rfl
  have hform : ∀ w : Vocab, populateV w "A" =
      Except.bind (addPtr { w with genState := w.genState + 1 } "A" (PtrVal.gen w.genState))
        (fun v1 => .ok v1) := by
    intro w
    show Except.bind (parsePopulate "A") (fun es => processEntries w es) = _
    rw [hparse]
    rfl
  rw [hform] at hpop
  have haddpure : ∀ (r : Except SpaError Vocab), Except.bind r (fun v1 => (.ok v1 : Except SpaError Vocab)) = r := by
    intro r
    cases r <;> rfl
  rw [haddpure] at hpop
  obtain ⟨hkeyA, hv'⟩ := addPtr_ok _ _ _ _ hpop
  have hkeyA' : v.hasKey "A" = false := hkeyA
  refine ⟨?_, ?_, ?_, ?_⟩
  · simp [addPtr, hk]
  · rw [hform, haddpure]
    have : ({ v' with genState := v'.genState + 1 } : Vocab).hasKey "A" = true := by
      subst hv'
      exact hasKey_append_self _ _ _
    simp [addPtr, this]
  · subst hv'
    exact hasKey_append_self _ _ _
  · intro k x hkx
    subst hv'
    exact find_append_preserved _ _ _ _ _ hkx

/-- Witness for C8: a vocabulary already holding `B` (duplicate `add`) and the
concrete effect of running `populate('A')` twice. -/
theorem populate_duplicate_spec_witness :
    addPtr ⟨0, 16, true, 1/10, [("B", PtrVal.raw [1])], 5⟩ "B" (PtrVal.raw [2]) =
      .error (.duplicateKey "B") ∧
    populateV ⟨0, 16, true, 1/10, [("B", PtrVal.raw [1]), ("A", PtrVal.gen 5)], 6⟩ "A" =
      .error (.duplicateKey "A") ∧
    Vocab.hasKey ⟨0, 16, true, 1/10, [("B", PtrVal.raw [1]), ("A", PtrVal.gen 5)], 6⟩ "A" = true ∧
    ∀ k x, Vocab.find ⟨0, 16, true, 1/10, [("B", PtrVal.raw [1])], 5⟩ k = some x →
      Vocab.find ⟨0, 16, true, 1/10, [("B", PtrVal.raw [1]), ("A", PtrVal.gen 5)], 6⟩ k = some x :=
  populate_duplicate_spec ⟨0, 16, true, 1/10, [("B", PtrVal.raw [1])], 5⟩
    ⟨0, 16, true, 1/10, [("B", PtrVal.raw [1]), ("A", PtrVal.gen 5)], 6⟩ "B" (PtrVal.raw [2])
    (by decide) rfl

theorem bind_ok_spa {α β : Type} (a : α) (f : α → Except SpaError β) :
    bind (Except.ok a) f = f a := rfl

theorem populateV_eq (v : Vocab) (s : String) :
    populateV v s = bind (parsePopulate s) (fun es => processEntries v es) := rfl

theorem processEntries_cons (v : Vocab) (e : PopEntry) (es : List PopEntry) :
    processEntries v (e :: es) = bind (processEntry v e) (fun v1 => processEntries v1 es) := rfl

theorem processEntry_assign (v : Vocab) (n : String) (e : PExpr) :
    processEntry v (.assign n e) = bind (evalPExpr v e)
      (fun val => match val with
        | .ptrV p => addPtr v n p
        | .scalarV _ => .error .scalarTypeError) := rfl

/-- C10: populate accepts assignment entries whose right-hand side is a
compound expression followed by a transform — `NAME = expr.unitary()` and
`NAME = expr.normalized()` — beyond the four basic entry shapes, and such an
entry adds the transformed pointer under the given name. -/
theorem populate_assign_transform_spec (v : Vocab) (ps pc : PtrVal)
    (hs : v.find "SQUARE" = some ps) (hc : v.find "CIRCLE" = some pc)
    (hu : v.hasKey "UNITARY2" = false) (hn : v.hasKey "NORM2" = false) :
    (populateV v "UNITARY2 = (SQUARE * CIRCLE).unitary()" =
        .ok { v with entries := v.entries ++ [("UNITARY2", PtrVal.unitary (PtrVal.bindV ps pc))] } ∧
      ∀ v', populateV v "UNITARY2 = (SQUARE * CIRCLE).unitary()" = .ok v' →
        v'.find "UNITARY2" = some (PtrVal.unitary (PtrVal.bindV ps pc))) ∧
    (populateV v "NORM2 = (SQUARE + CIRCLE).normalized()" =
        .ok { v with entries := v.entries ++ [("NORM2", PtrVal.normalized (PtrVal.sup ps pc))] } ∧
      ∀ v', populateV v "NORM2 = (SQUARE + CIRCLE).normalized()" = .ok v' →
        v'.find "NORM2" = some (PtrVal.normalized (PtrVal.sup ps pc))) := by
  have hparse1 : parsePopulate "UNITARY2 = (SQUARE * CIRCLE).unitary()" =
      .ok [PopEntry.assign "UNITARY2"
        (PExpr.unitE (PExpr.mulE (PExpr.ident "SQUARE") (PExpr.ident "CIRCLE")))] := rfl
  have hparse2 : parsePopulate "NORM2 = (SQUARE + CIRCLE).normalized()" =
      .ok [PopEntry.assign "NORM2"
        (PExpr.normE (PExpr.sumE (PExpr.ident "SQUARE") (PExpr.ident "CIRCLE")))] := rfl
  have hs' : List.lookup "SQUARE" v.entries = some ps := hs
  have hc' : List.lookup "CIRCLE" v.entries = some pc := hc
  have heval1 : evalPExpr v (PExpr.unitE (PExpr.mulE (PExpr.ident "SQUARE") (PExpr.ident "CIRCLE"))) =
      .ok (.ptrV (PtrVal.unitary (PtrVal.bindV ps pc))) := by
    simp [evalPExpr, Vocab.find, hs', hc', bind_ok_spa]
  have heval2 : evalPExpr v (PExpr.normE (PExpr.sumE (PExpr.ident "SQUARE") (PExpr.ident "CIRCLE"))) =
      .ok (.ptrV (PtrVal.normalized (PtrVal.sup ps pc))) := by
    simp [evalPExpr, Vocab.find, hs', hc', bind_ok_spa]
  have hpop1 : populateV v "UNITARY2 = (SQUARE * CIRCLE).unitary()" =
      .ok { v with entries := v.entries ++ [("UNITARY2", PtrVal.unitary (PtrVal.bindV ps pc))] } := by
    rw [populateV_eq, hparse1, bind_ok_spa, processEntries_cons, processEntry_assign,
      heval1, bind_ok_spa]
    show bind (addPtr v "UNITARY2" (PtrVal.unitary (PtrVal.bindV ps pc)))
      (fun v1 => processEntries v1 []) = _
    simp [addPtr, hu, bind_ok_spa, processEntries]
  have hpop2 : populateV v "NORM2 = (SQUARE + CIRCLE).normalized()" =
      .ok { v with entries := v.entries ++ [("NORM2", PtrVal.normalized (PtrVal.sup ps pc))] } := by
    rw [populateV_eq, hparse2, bind_ok_spa, processEntries_cons, processEntry_assign,
      heval2, bind_ok_spa]
    show bind (addPtr v "NORM2" (PtrVal.normalized (PtrVal.sup ps pc)))
      (fun v1 => processEntries v1 []) = _
    simp [addPtr, hn, bind_ok_spa, processEntries]
  refine ⟨⟨hpop1, ?_⟩, hpop2, ?_⟩
  · intro v' hv'
    rw [hpop1] at hv'
    cases hv'
    exact find_append_self v _ _ hu
  · intro v' hv'
    rw [hpop2] at hv'
    cases hv'
    exact find_append_self v _ _ hn

/-- Witness for C10 on a concrete vocabulary holding `SQUARE` and `CIRCLE`. -/
theorem populate_assign_transform_spec_witness :
    (populateV ⟨0, 16, true, 1/10, [("SQUARE", PtrVal.gen 0), ("CIRCLE", PtrVal.gen 1)], 2⟩
        "UNITARY2 = (SQUARE * CIRCLE).unitary()" =
        .ok { vid := 0, dim := 16, strict := true, maxSimilarity := 1/10,
              entries := [("SQUARE", PtrVal.gen 0), ("CIRCLE", PtrVal.gen 1)] ++
                [("UNITARY2", PtrVal.unitary (PtrVal.bindV (PtrVal.gen 0) (PtrVal.gen 1)))],
              genState := 2 } ∧
      ∀ v', populateV ⟨0, 16, true, 1/10, [("SQUARE", PtrVal.gen 0), ("CIRCLE", PtrVal.gen 1)], 2⟩
          "UNITARY2 = (SQUARE * CIRCLE).unitary()" = .ok v' →
        v'.find "UNITARY2" = some (PtrVal.unitary (PtrVal.bindV (PtrVal.gen 0) (PtrVal.gen 1)))) ∧
    (populateV ⟨0, 16, true, 1/10, [("SQUARE", PtrVal.gen 0), ("CIRCLE", PtrVal.gen 1)], 2⟩
        "NORM2 = (SQUARE + CIRCLE).normalized()" =
        .ok { vid := 0, dim := 16, strict := true, maxSimilarity := 1/10,
              entries := [("SQUARE", PtrVal.gen 0), ("CIRCLE", PtrVal.gen 1)] ++
                [("NORM2", PtrVal.normalized (PtrVal.sup (PtrVal.gen 0) (PtrVal.gen 1)))],
              genState := 2 } ∧
      ∀ v', populateV ⟨0, 16, true, 1/10, [("SQUARE", PtrVal.gen 0), ("CIRCLE", PtrVal.gen 1)], 2⟩
          "NORM2 = (SQUARE + CIRCLE).normalized()" = .ok v' →
        v'.find "NORM2" = some (PtrVal.normalized (PtrVal.sup (PtrVal.gen 0) (PtrVal.gen 1)))) :=
  populate_assign_transform_spec
    ⟨0, 16, true, 1/10, [("SQUARE", PtrVal.gen 0), ("CIRCLE", PtrVal.gen 1)], 2⟩
    (PtrVal.gen 0) (PtrVal.gen 1) rfl rfl (by decide) (by decide)

theorem lookup_mem {α β : Type} [BEq α] [LawfulBEq α]
    (l : List (α × β)) (k : α) (x : β)
    (h : l.lookup k = some x) : (k, x) ∈ l := by
  induction l with
  | nil => cases h
  | cons e es ih =>
    obtain ⟨a, b⟩ := e
    by_cases hek : k = a
    · subst hek
      simp [List.lookup_cons] at h
      subst h
      exact List.mem_cons_self _ _
    · simp only [List.lookup_cons, beq_false_of_ne hek] at h
      exact List.mem_cons_of_mem _ (ih h)

theorem not_mem_keys_lookup_none {α β : Type} [BEq α] [LawfulBEq α]
    (l : List (α × β)) (k : α)
    (h : k ∉ l.map Prod.fst) : l.lookup k = none := by
  induction l with
  | nil => rfl
  | cons e es ih =>
    obtain ⟨a, b⟩ := e
    simp only [List.map_cons, List.mem_cons, not_or] at h
    simp only [List.lookup_cons, beq_false_of_ne h.1]
    exact ih h.2

theorem extends_refl (ids : List Nat) (st : LState) : Extends ids st st :=
  ⟨⟨[], [], by simp, by simp, rfl, by simp, by simp⟩, le_refl _, fun h => h, fun h => h⟩

theorem extends_mono_ids {ids ids' : List Nat} {st st' : LState}
    (hsub : ∀ k, k ∈ ids → k ∈ ids') (h : Extends ids st st') : Extends ids' st st' := by
  obtain ⟨⟨nf, nm, h1, h2, h3, h4, h5⟩, h6, h7, h8⟩ := h
  exact ⟨⟨nf, nm, h1, h2, h3, fun e he => hsub _ (h4 e he), h5⟩, h6, h7, h8⟩

theorem extends_comp {ids1 ids2 : List Nat} {st st1 st2 : LState}
    (h1 : Extends ids1 st st1) (h2 : Extends ids2 st1 st2) :
    Extends (ids1 ++ ids2) st st2 := by
  obtain ⟨⟨nf1, nm1, e1, e2, e3, e4, e5⟩, e6, e7, e8⟩ := h1
  obtain ⟨⟨nf2, nm2, f1, f2, f3, f4, f5⟩, f6, f7, f8⟩ := h2
  refine ⟨⟨nf1 ++ nf2, nm1 ++ nm2, ?_, ?_, ?_, ?_, ?_⟩, le_trans e6 f6,
    fun hb => f7 (e7 hb), fun hn => f8 (e8 hn)⟩
  · rw [f1, e1, List.append_assoc]
  · rw [f2, e2, List.append_assoc]
  · rw [List.map_append, List.map_append, e3, f3]
  · intro e he
    rcases List.mem_append.mp he with h | h
    · exact List.mem_append_left _ (e4 e h)
    · exact List.mem_append_right _ (f4 e h)
  · intro e he
    rcases List.mem_append.mp he with h | h
    · exact e5 e h
    · exact le_trans e6 (f5 e h)

theorem mem_keys_exists_lookup {α β : Type} [BEq α] [LawfulBEq α]
    (l : List (α × β)) (k : α) (h : k ∈ l.map Prod.fst) :
    ∃ v, l.lookup k = some v := by
  induction l with
  | nil => cases h
  | cons e es ih =>
    obtain ⟨a, b⟩ := e
    by_cases hek : k = a
    · subst hek
      exact ⟨b, by simp [List.lookup_cons]⟩
    · simp only [List.map_cons, List.mem_cons] at h
      rcases h with h | h
      · exact absurd h hek
      · simpa [List.lookup_cons, beq_false_of_ne hek] using ih h

theorem lookup_none_not_mem_keys {α β : Type} [BEq α] [LawfulBEq α]
    (l : List (α × β)) (k : α) (h : l.lookup k = none) :
    k ∉ l.map Prod.fst := by
  intro hmem
  obtain ⟨v, hv⟩ := mem_keys_exists_lookup l k hmem
  rw [h] at hv
  cases hv

theorem extends_emit {ids : List Nat} {st st' : LState} (i : Nat) (op : FragOp) (ins : List Nat)
    (h : Extends ids st st') (hroot : st'.memo.lookup i = none) :
    Extends (i :: ids) st (emit st' i op ins).2 ∧
    (emit st' i op ins).2.memo.lookup i = some (emit st' i op ins).1 ∧
    (emit st' i op ins).1 = st'.next ∧
    (emit st' i op ins).2.next = st'.next + 1 := by
  obtain ⟨⟨nf, nm, e1, e2, e3, e4, e5⟩, e6, e7, e8⟩ := h
  refine ⟨⟨⟨nf ++ [{ port := st'.next, producerNid := i, op := op, inputs := ins }],
      nm ++ [(i, st'.next)], ?_, ?_, ?_, ?_, ?_⟩, ?_, ?_, ?_⟩, ?_, rfl, rfl⟩
  · show st'.frags ++ _ = st.frags ++ _
    rw [e1, List.append_assoc]
  · show st'.memo ++ _ = st.memo ++ _
    rw [e2, List.append_assoc]
  · rw [List.map_append, List.map_append, e3]
    rfl
  · intro e he
    rcases List.mem_append.mp he with h | h
    · exact List.mem_cons_of_mem _ (e4 e h)
    · rcases List.mem_singleton.mp h with rfl
      exact List.mem_cons_self _ _
  · intro e he
    rcases List.mem_append.mp he with h | h
    · exact e5 e h
    · rcases List.mem_singleton.mp h with rfl
      exact e6
  · show st.next ≤ st'.next + 1
    exact le_trans e6 (Nat.le_succ _)
  · intro hb e he
    show e.2 < st'.next + 1
    rcases List.mem_append.mp he with h | h
    · exact Nat.lt_succ_of_lt (e7 hb e h)
    · rcases List.mem_singleton.mp h with rfl
      exact Nat.lt_succ_self _
  · intro hn
    show ((st'.memo ++ [(i, st'.next)]).map Prod.fst).Nodup
    rw [List.map_append]
    refine List.nodup_append.mpr ⟨e8 hn, List.nodup_singleton _, ?_⟩
    intro k hk hk'
    rcases List.mem_singleton.mp hk' with rfl
    exact lookup_none_not_mem_keys _ _ hroot hk
  · show (st'.memo ++ [(i, st'.next)]).lookup i = some st'.next
    rw [lookup_append_none _ _ _ hroot]
    simp [List.lookup_cons]

theorem lower_hit (n : Node) (st : LState) (p : Nat)
    (h : st.memo.lookup n.nid = some p) : lower n st = (p, st) := by
  cases n <;> simp only [Node.nid] at h <;> rw [lower, h]

theorem specPack_hit (n : Node) (st : LState) (p : Nat)
    (h : st.memo.lookup n.nid = some p) : SpecPack n st := by
  have hred := lower_hit n st p h
  unfold SpecPack
  rw [hred]
  refine ⟨extends_refl _ _, h, ?_, ?_⟩
  · intro hb
    exact hb _ (lookup_mem _ _ _ h)
  · intro hnone
    rw [h] at hnone
    cases hnone

theorem specPack_step0 (i : Nat) (st : LState) (op : FragOp) (ins : List Nat)
    (hmiss : st.memo.lookup i = none) :
    Extends [i] st (emit st i op ins).2 ∧
    (emit st i op ins).2.memo.lookup i = some (emit st i op ins).1 ∧
    ((∀ e ∈ st.memo, e.2 < st.next) → (emit st i op ins).1 < (emit st i op ins).2.next) ∧
    (st.memo.lookup i = none → st.next ≤ (emit st i op ins).1) := by
  obtain ⟨hE, hLk, hP, hN⟩ := extends_emit i op ins (extends_refl [] st) hmiss
  refine ⟨hE, hLk, ?_, ?_⟩
  · intro _
    rw [hP, hN]
    exact Nat.lt_succ_self _
  · intro _
    rw [hP]

theorem specPack_step1 (i : Nat) (a : Node) (st : LState) (op : FragOp) (ins : List Nat)
    (hmiss : st.memo.lookup i = none) (hni : i ∉ a.nids) (hpa : SpecPack a st) :
    Extends (i :: a.nids) st (emit (lower a st).2 i op ins).2 ∧
    (emit (lower a st).2 i op ins).2.memo.lookup i = some (emit (lower a st).2 i op ins).1 ∧
    ((∀ e ∈ st.memo, e.2 < st.next) →
      (emit (lower a st).2 i op ins).1 < (emit (lower a st).2 i op ins).2.next) ∧
    (st.memo.lookup i = none → st.next ≤ (emit (lower a st).2 i op ins).1) := by
  obtain ⟨hEa, _, _, _⟩ := hpa
  have hst1 : ((lower a st).2).memo.lookup i = none := by
    obtain ⟨⟨nf, nm, e1, e2, e3, e4, e5⟩, _, _, _⟩ := hEa
    rw [e2, lookup_append_none _ _ _ hmiss]
    apply not_mem_keys_lookup_none
    intro hmem
    rcases List.mem_map.mp hmem with ⟨e, he, rfl⟩
    exact hni (e4 e he)
  obtain ⟨hE, hLk, hP, hN⟩ := extends_emit i op ins hEa hst1
  refine ⟨hE, hLk, ?_, ?_⟩
  · intro _
    rw [hP, hN]
    exact Nat.lt_succ_self _
  · intro _
    rw [hP]
    exact hEa.2.1

theorem specPack_step2 (i : Nat) (a b : Node) (st : LState) (op : FragOp) (ins : List Nat)
    (hmiss : st.memo.lookup i = none) (hni : i ∉ a.nids ++ b.nids)
    (hpa : SpecPack a st) (hpb : SpecPack b (lower a st).2) :
    Extends (i :: (a.nids ++ b.nids)) st (emit (lower b (lower a st).2).2 i op ins).2 ∧
    (emit (lower b (lower a st).2).2 i op ins).2.memo.lookup i =
      some (emit (lower b (lower a st).2).2 i op ins).1 ∧
    ((∀ e ∈ st.memo, e.2 < st.next) →
      (emit (lower b (lower a st).2).2 i op ins).1 <
        (emit (lower b (lower a st).2).2 i op ins).2.next) ∧
    (st.memo.lookup i = none →
      st.next ≤ (emit (lower b (lower a st).2).2 i op ins).1) := by
  obtain ⟨hEa, _, _, _⟩ := hpa
  obtain ⟨hEb, _, _, _⟩ := hpb
  have hcomp := extends_comp hEa hEb
  have hst2 : ((lower b (lower a st).2).2).memo.lookup i = none := by
    obtain ⟨⟨nf, nm, e1, e2, e3, e4, e5⟩, _, _, _⟩ := hcomp
    rw [e2, lookup_append_none _ _ _ hmiss]
    apply not_mem_keys_lookup_none
    intro hmem
    rcases List.mem_map.mp hmem with ⟨e, he, rfl⟩
    exact hni (e4 e he)
  obtain ⟨hE, hLk, hP, hN⟩ := extends_emit i op ins hcomp hst2
  refine ⟨hE, hLk, ?_, ?_⟩
  · intro _
    rw [hP, hN]
    exact Nat.lt_succ_self _
  · intro _
    rw [hP]
    exact hcomp.2.1

theorem lower_spec (n : Node) : ∀ st : LState, n.idsOk = true → SpecPack n st := by
  induction n with
  | port i v =>
    intro st _
    cases hl : st.memo.lookup i with
    | some p => exact specPack_hit _ st p hl
    | none =>
      have hred : lower (.port i v) st = emit st i (.portOp v) [] := by rw [lower, hl]
      unfold SpecPack
      rw [hred]
      exact specPack_step0 i st _ _ hl
  | symbolN i s v =>
    intro st _
    cases hl : st.memo.lookup i with
    | some p => exact specPack_hit _ st p hl
    | none =>
      have hred : lower (.symbolN i s v) st = emit st i (.symbolOp s v) [] := by rw [lower, hl]
      unfold SpecPack
      rw [hred]
      exact specPack_step0 i st _ _ hl
  | scalarN i c =>
    intro st _
    cases hl : st.memo.lookup i with
    | some p => exact specPack_hit _ st p hl
    | none =>
      have hred : lower (.scalarN i c) st = emit st i (.scalarOp c) [] := by rw [lower, hl]
      unfold SpecPack
      rw [hred]
      exact specPack_step0 i st _ _ hl
  | sumN i a b iha ihb =>
    intro st hok
    rw [Node.idsOk] at hok
    simp only [Bool.and_eq_true, decide_eq_true_eq] at hok
    obtain ⟨hni, hoka, hokb⟩ := hok
    cases hl : st.memo.lookup i with
    | some p => exact specPack_hit _ st p hl
    | none =>
      have hred : lower (.sumN i a b) st =
          emit (lower b (lower a st).2).2 i .sumOp [(lower a st).1, (lower b (lower a st).2).1] := by
        rw [lower, hl]
      unfold SpecPack
      rw [hred]
      exact specPack_step2 i a b st _ _ hl hni (iha st hoka) (ihb (lower a st).2 hokb)
  | productN i a b iha ihb =>
    intro st hok
    rw [Node.idsOk] at hok
    simp only [Bool.and_eq_true, decide_eq_true_eq] at hok
    obtain ⟨hni, hoka, hokb⟩ := hok
    cases hl : st.memo.lookup i with
    | some p => exact specPack_hit _ st p hl
    | none =>
      have hred : lower (.productN i a b) st =
          emit (lower b (lower a st).2).2 i .productOp
            [(lower a st).1, (lower b (lower a st).2).1] := by
        rw [lower, hl]
      unfold SpecPack
      rw [hred]
      exact specPack_step2 i a b st _ _ hl hni (iha st hoka) (ihb (lower a st).2 hokb)
  | invertN i a iha =>
    intro st hok
    rw [Node.idsOk] at hok
    simp only [Bool.and_eq_true, decide_eq_true_eq] at hok
    obtain ⟨hni, hoka⟩ := hok
    cases hl : st.memo.lookup i with
    | some p => exact specPack_hit _ st p hl
    | none =>
      have hred : lower (.invertN i a) st =
          emit (lower a st).2 i .invertOp [(lower a st).1] := by
        rw [lower, hl]
      unfold SpecPack
      rw [hred]
      exact specPack_step1 i a st _ _ hl hni (iha st hoka)
  | dotN i a b iha ihb =>
    intro st hok
    rw [Node.idsOk] at hok
    simp only [Bool.and_eq_true, decide_eq_true_eq] at hok
    obtain ⟨hni, hoka, hokb⟩ := hok
    cases hl : st.memo.lookup i with
    | some p => exact specPack_hit _ st p hl
    | none =>
      have hred : lower (.dotN i a b) st =
          emit (lower b (lower a st).2).2 i .dotOp [(lower a st).1, (lower b (lower a st).2).1] := by
        rw [lower, hl]
      unfold SpecPack
      rw [hred]
      exact specPack_step2 i a b st _ _ hl hni (iha st hoka) (ihb (lower a st).2 hokb)
  | reinterpretN i a tgt iha =>
    intro st hok
    rw [Node.idsOk] at hok
    simp only [Bool.and_eq_true, decide_eq_true_eq] at hok
    obtain ⟨hni, hoka⟩ := hok
    cases hl : st.memo.lookup i with
    | some p => exact specPack_hit _ st p hl
    | none =>
      have hred : lower (.reinterpretN i a tgt) st =
          emit (lower a st).2 i (.reinterpretOp tgt) [(lower a st).1] := by
        rw [lower, hl]
      unfold SpecPack
      rw [hred]
      exact specPack_step1 i a st _ _ hl hni (iha st hoka)
  | translateN i a tgt iha =>
    intro st hok
    rw [Node.idsOk] at hok
    simp only [Bool.and_eq_true, decide_eq_true_eq] at hok
    obtain ⟨hni, hoka⟩ := hok
    cases hl : st.memo.lookup i with
    | some p => exact specPack_hit _ st p hl
    | none =>
      have hred : lower (.translateN i a tgt) st =
          emit (lower a st).2 i (.translateOp tgt) [(lower a st).1] := by
        rw [lower, hl]
      unfold SpecPack
      rw [hred]
      exact specPack_step1 i a st _ _ hl hni (iha st hoka)

theorem nid_mem_nids (x : Node) : x.nid ∈ x.nids := by
  cases x <;> simp [Node.nid, Node.nids]

theorem extends_sync {ids : List Nat} {st st' : LState} (h : Extends ids st st')
    (hsync : st.frags.map Frag.producerNid = st.memo.map Prod.fst) :
    st'.frags.map Frag.producerNid = st'.memo.map Prod.fst := by
  obtain ⟨⟨nf, nm, e1, e2, e3, _, _⟩, _, _, _⟩ := h
  rw [e1, e2, List.map_append, List.map_append, hsync, e3]

theorem extends_keys_subset {ids : List Nat} {st st' : LState} (h : Extends ids st st') :
    ∀ k, k ∈ st'.memo.map Prod.fst → k ∈ st.memo.map Prod.fst ∨ k ∈ ids := by
  obtain ⟨⟨nf, nm, e1, e2, e3, e4, _⟩, _, _, _⟩ := h
  intro k hk
  rw [e2, List.map_append] at hk
  rcases List.mem_append.mp hk with h | h
  · exact Or.inl h
  · rcases List.mem_map.mp h with ⟨e, he, rfl⟩
    exact Or.inr (e4 e he)

theorem extends_keys_mono {ids : List Nat} {st st' : LState} (h : Extends ids st st') :
    ∀ k, k ∈ st.memo.map Prod.fst → k ∈ st'.memo.map Prod.fst := by
  obtain ⟨⟨nf, nm, e1, e2, e3, e4, _⟩, _, _, _⟩ := h
  intro k hk
  rw [e2, List.map_append]
  exact List.mem_append_left _ hk

theorem frags_count_one (st : LState) (k : Nat)
    (hsync : st.frags.map Frag.producerNid = st.memo.map Prod.fst)
    (hnd : (st.memo.map Prod.fst).Nodup)
    (hmem : k ∈ st.memo.map Prod.fst) :
    (st.frags.map Frag.producerNid).count k = 1 := by
  rw [hsync]
  exact List.count_eq_one_of_mem hnd hmem

theorem count_append_other (fr : List Frag) (f : Frag) (k : Nat) (hk : k ≠ f.producerNid) :
    ((fr ++ [f]).map Frag.producerNid).count k = (fr.map Frag.producerNid).count k := by
  rw [List.map_append, List.count_append]
  have : (List.map Frag.producerNid [f]).count k = 0 := by
    apply List.count_eq_zero.mpr
    simp [hk]
  rw [this]
  exact Nat.add_zero _

/-- C4: lowering shares by object identity and never by structural equality.
Lowering `sumN n x x` (the same AST object referenced twice) produces exactly
the graph of one lowering of `x` plus a single sum fragment whose two inputs
are the same port, and exactly one fragment carries `x`'s identity; lowering
`sumN m x y`, where `y` is structurally identical to `x` but a distinct object,
produces one fragment for `x` and a separate fragment for `y` wired to two
distinct ports. -/
theorem lowering_sharing_spec (x y : Node) (n m : Nat)
    (hx : x.idsOk = true) (hy : y.idsOk = true)
    (hshape : x.eraseIds = y.eraseIds)
    (hdisj : ∀ k, k ∈ x.nids → k ∉ y.nids)
    (hnx : n ∉ x.nids)
    (hmx : m ∉ x.nids) (hmy : m ∉ y.nids) :
    lower (.sumN n x x) initLState =
      emit (lower x initLState).2 n .sumOp [(lower x initLState).1, (lower x initLState).1] ∧
    ((lower (.sumN n x x) initLState).2.frags.map Frag.producerNid).count x.nid = 1 ∧
    lower (.sumN m x y) initLState =
      emit (lower y (lower x initLState).2).2 m .sumOp
        [(lower x initLState).1, (lower y (lower x initLState).2).1] ∧
    ((lower (.sumN m x y) initLState).2.frags.map Frag.producerNid).count x.nid = 1 ∧
    ((lower (.sumN m x y) initLState).2.frags.map Frag.producerNid).count y.nid = 1 ∧
    x.nid ≠ y.nid ∧
    (lower x initLState).1 ≠ (lower y (lower x initLState).2).1 := by
  obtain ⟨hEx, hLkx, hResx, hMissx⟩ := lower_spec x initLState hx
  obtain ⟨hEy, hLky, hResy, hMissy⟩ := lower_spec y (lower x initLState).2 hy
  have hsync0 : initLState.frags.map Frag.producerNid = initLState.memo.map Prod.fst := rfl
  have hnd0 : (initLState.memo.map Prod.fst).Nodup := List.nodup_nil
  have hbound0 : ∀ e ∈ initLState.memo, e.2 < initLState.next := by
    intro e he
    cases he
  have hsync1 := extends_sync hEx hsync0
  have hnd1 : ((lower x initLState).2.memo.map Prod.fst).Nodup := hEx.2.2.2 hnd0
  have hbound1 := hEx.2.2.1 hbound0
  have hkeys1 : ∀ k, k ∈ (lower x initLState).2.memo.map Prod.fst → k ∈ x.nids := by
    intro k hk
    rcases extends_keys_subset hEx k hk with h | h
    · cases h
    · exact h
  have hxmem1 : x.nid ∈ (lower x initLState).2.memo.map Prod.fst :=
    List.mem_map_of_mem Prod.fst (lookup_mem _ _ _ hLkx)
  have hynid : y.nid ∉ x.nids := by
    intro hc
    exact hdisj y.nid hc (nid_mem_nids y)
  have hxyne : x.nid ≠ y.nid := by
    intro hc
    exact hynid (hc ▸ nid_mem_nids x)
  have hylk1 : (lower x initLState).2.memo.lookup y.nid = none := by
    apply not_mem_keys_lookup_none
    intro hc
    exact hynid (hkeys1 _ hc)
  have hhitx : lower x (lower x initLState).2 = ((lower x initLState).1, (lower x initLState).2) :=
    lower_hit x _ _ hLkx
  have hredA : lower (.sumN n x x) initLState =
      emit (lower x initLState).2 n .sumOp [(lower x initLState).1, (lower x initLState).1] := by
    rw [lower]
    rw [hhitx]
    rfl
  have hredB : lower (.sumN m x y) initLState =
      emit (lower y (lower x initLState).2).2 m .sumOp
        [(lower x initLState).1, (lower y (lower x initLState).2).1] := by
    rw [lower]
    rfl
  have hnxnid : n ≠ x.nid := by
    intro hc
    exact hnx (hc ▸ nid_mem_nids x)
  have hmxnid : m ≠ x.nid := by
    intro hc
    exact hmx (hc ▸ nid_mem_nids x)
  have hmynid : m ≠ y.nid := by
    intro hc
    exact hmy (hc ▸ nid_mem_nids y)
  have hsync2 := extends_sync hEy hsync1
  have hnd2 : ((lower y (lower x initLState).2).2.memo.map Prod.fst).Nodup := hEy.2.2.2 hnd1
  have hxmem2 : x.nid ∈ (lower y (lower x initLState).2).2.memo.map Prod.fst :=
    extends_keys_mono hEy _ hxmem1
  have hymem2 : y.nid ∈ (lower y (lower x initLState).2).2.memo.map Prod.fst :=
    List.mem_map_of_mem Prod.fst (lookup_mem _ _ _ hLky)
  refine ⟨hredA, ?_, hredB, ?_, ?_, hxyne, ?_⟩
  · rw [hredA]
    show ((((lower x initLState).2).frags ++ _).map Frag.producerNid).count x.nid = 1
    rw [count_append_other _ _ _ (fun hc => hnxnid hc.symm)]
    exact frags_count_one _ _ hsync1 hnd1 hxmem1
  · rw [hredB]
    show ((((lower y (lower x initLState).2).2).frags ++ _).map Frag.producerNid).count x.nid = 1
    rw [count_append_other _ _ _ (fun hc => hmxnid hc.symm)]
    exact frags_count_one _ _ hsync2 hnd2 hxmem2
  · rw [hredB]
    show ((((lower y (lower x initLState).2).2).frags ++ _).map Frag.producerNid).count y.nid = 1
    rw [count_append_other _ _ _ (fun hc => hmynid hc.symm)]
    exact frags_count_one _ _ hsync2 hnd2 hymem2
  · have hpx : (lower x initLState).1 < (lower x initLState).2.next := hResx hbound0
    have hpy : (lower x initLState).2.next ≤ (lower y (lower x initLState).2).1 :=
      hMissy hylk1
    exact Nat.ne_of_lt (lt_of_lt_of_le hpx hpy)

/-- Witness for C4: two structurally identical symbol atoms with distinct
object identities, lowered shared and unshared. -/
theorem lowering_sharing_spec_witness :
    lower (.sumN 3 (.symbolN 1 "A" ⟨0, 4, true, 1/10, [], 0⟩)
        (.symbolN 1 "A" ⟨0, 4, true, 1/10, [], 0⟩)) initLState =
      emit (lower (.symbolN 1 "A" ⟨0, 4, true, 1/10, [], 0⟩) initLState).2 3 .sumOp
        [(lower (.symbolN 1 "A" ⟨0, 4, true, 1/10, [], 0⟩) initLState).1,
         (lower (.symbolN 1 "A" ⟨0, 4, true, 1/10, [], 0⟩) initLState).1] ∧
    ((lower (.sumN 3 (.symbolN 1 "A" ⟨0, 4, true, 1/10, [], 0⟩)
        (.symbolN 1 "A" ⟨0, 4, true, 1/10, [], 0⟩)) initLState).2.frags.map
      Frag.producerNid).count (Node.symbolN 1 "A" ⟨0, 4, true, 1/10, [], 0⟩).nid = 1 ∧
    lower (.sumN 4 (.symbolN 1 "A" ⟨0, 4, true, 1/10, [], 0⟩)
        (.symbolN 2 "A" ⟨0, 4, true, 1/10, [], 0⟩)) initLState =
      emit (lower (.symbolN 2 "A" ⟨0, 4, true, 1/10, [], 0⟩)
          (lower (.symbolN 1 "A" ⟨0, 4, true, 1/10, [], 0⟩) initLState).2).2 4 .sumOp
        [(lower (.symbolN 1 "A" ⟨0, 4, true, 1/10, [], 0⟩) initLState).1,
         (lower (.symbolN 2 "A" ⟨0, 4, true, 1/10, [], 0⟩)
           (lower (.symbolN 1 "A" ⟨0, 4, true, 1/10, [], 0⟩) initLState).2).1] ∧
    ((lower (.sumN 4 (.symbolN 1 "A" ⟨0, 4, true, 1/10, [], 0⟩)
        (.symbolN 2 "A" ⟨0, 4, true, 1/10, [], 0⟩)) initLState).2.frags.map
      Frag.producerNid).count (Node.symbolN 1 "A" ⟨0, 4, true, 1/10, [], 0⟩).nid = 1 ∧
    ((lower (.sumN 4 (.symbolN 1 "A" ⟨0, 4, true, 1/10, [], 0⟩)
        (.symbolN 2 "A" ⟨0, 4, true, 1/10, [], 0⟩)) initLState).2.frags.map
      Frag.producerNid).count (Node.symbolN 2 "A" ⟨0, 4, true, 1/10, [], 0⟩).nid = 1 ∧
    (Node.symbolN 1 "A" ⟨0, 4, true, 1/10, [], 0⟩).nid ≠
      (Node.symbolN 2 "A" ⟨0, 4, true, 1/10, [], 0⟩).nid ∧
    (lower (.symbolN 1 "A" ⟨0, 4, true, 1/10, [], 0⟩) initLState).1 ≠
      (lower (.symbolN 2 "A" ⟨0, 4, true, 1/10, [], 0⟩)
        (lower (.symbolN 1 "A" ⟨0, 4, true, 1/10, [], 0⟩) initLState).2).1 :=
  lowering_sharing_spec
    (.symbolN 1 "A" ⟨0, 4, true, 1/10, [], 0⟩)
    (.symbolN 2 "A" ⟨0, 4, true, 1/10, [], 0⟩) 3 4
    (by decide) (by decide) rfl
    (by
      intro k hk
      simp [Node.nids] at hk ⊢
      omega)
    (by decide) (by decide) (by decide)

theorem issueStmt_typeError (b : Builder) (e : Node) (s : Sink) (err : SpaError)
    (h : inferType e = .error err) : issueStmt b (.route e s) = (b, some err) := by
  rw [issueStmt, h]

theorem issueStmt_scalarSink (b : Builder) (e : Node) (s : Sink)
    (h : inferType e = .ok .scalarT) :
    issueStmt b (.route e s) = (b, some .scalarTypeError) := by
  rw [issueStmt, h]

theorem issueStmt_sinkMismatch (b : Builder) (e : Node) (s : Sink) (v : Vocab)
    (h : inferType e = .ok (.vecT v)) (hv : v ≠ s.vocab) :
    issueStmt b (.route e s) = (b, some (.vocabularyMismatch v s.vocab)) := by
  rw [issueStmt, h]
  show (if v = s.vocab then
      ({ lstate := (lower e b.lstate).2,
         edges := b.edges ++ [((lower e b.lstate).1, s.sid)] }, none)
    else (b, some (SpaError.vocabularyMismatch v s.vocab))) = _
  rw [if_neg hv]

theorem issueStmt_ok (b : Builder) (e : Node) (s : Sink) (v : Vocab)
    (h : inferType e = .ok (.vecT v)) (hv : v = s.vocab) :
    issueStmt b (.route e s) =
      ({ lstate := (lower e b.lstate).2,
         edges := b.edges ++ [((lower e b.lstate).1, s.sid)] }, none) := by
  rw [issueStmt, h]
  show (if v = s.vocab then
      ({ lstate := (lower e b.lstate).2,
         edges := b.edges ++ [((lower e b.lstate).1, s.sid)] }, none)
    else (b, some (SpaError.vocabularyMismatch v s.vocab))) = _
  rw [if_pos hv]

theorem emit_frags (st : LState) (i : Nat) (op : FragOp) (ins : List Nat) :
    (emit st i op ins).2.frags =
      st.frags ++ [{ port := st.next, producerNid := i, op := op, inputs := ins }] := rfl

theorem append_chain {alpha : Type} {A B n1 : List alpha} (h : A = B ++ n1) (l : List alpha) :
    A ++ l = B ++ (n1 ++ l) := by
  rw [h, List.append_assoc]

theorem lower_frags_append (n : Node) : ∀ st : LState,
    ∃ nf, (lower n st).2.frags = st.frags ++ nf := by
  induction n with
  | port i v =>
    intro st
    cases hl : st.memo.lookup i with
    | some p =>
      rw [lower, hl]
      exact ⟨[], by simp⟩
    | none =>
      rw [lower, hl, emit_frags]
      exact ⟨_, rfl⟩
  | symbolN i s v =>
    intro st
    cases hl : st.memo.lookup i with
    | some p =>
      rw [lower, hl]
      exact ⟨[], by simp⟩
    | none =>
      rw [lower, hl, emit_frags]
      exact ⟨_, rfl⟩
  | scalarN i c =>
    intro st
    cases hl : st.memo.lookup i with
    | some p =>
      rw [lower, hl]
      exact ⟨[], by simp⟩
    | none =>
      rw [lower, hl, emit_frags]
      exact ⟨_, rfl⟩
  | sumN i a b iha ihb =>
    intro st
    cases hl : st.memo.lookup i with
    | some p =>
      rw [lower, hl]
      exact ⟨[], by simp⟩
    | none =>
      rw [lower, hl, emit_frags]
      obtain ⟨nf1, h1⟩ := iha st
      obtain ⟨nf2, h2⟩ := ihb (lower a st).2
      have hX : (lower b (lower a st).2).2.frags = st.frags ++ (nf1 ++ nf2) := by
        rw [h2, h1, List.append_assoc]
      exact ⟨_, append_chain hX _⟩
  | productN i a b iha ihb =>
    intro st
    cases hl : st.memo.lookup i with
    | some p =>
      rw [lower, hl]
      exact ⟨[], by simp⟩
    | none =>
      rw [lower, hl, emit_frags]
      obtain ⟨nf1, h1⟩ := iha st
      obtain ⟨nf2, h2⟩ := ihb (lower a st).2
      have hX : (lower b (lower a st).2).2.frags = st.frags ++ (nf1 ++ nf2) := by
        rw [h2, h1, List.append_assoc]
      exact ⟨_, append_chain hX _⟩
  | invertN i a iha =>
    intro st
    cases hl : st.memo.lookup i with
    | some p =>
      rw [lower, hl]
      exact ⟨[], by simp⟩
    | none =>
      rw [lower, hl, emit_frags]
      obtain ⟨nf1, h1⟩ := iha st
      exact ⟨_, append_chain h1 _⟩
  | dotN i a b iha ihb =>
    intro st
    cases hl : st.memo.lookup i with
    | some p =>
      rw [lower, hl]
      exact ⟨[], by simp⟩
    | none =>
      rw [lower, hl, emit_frags]
      obtain ⟨nf1, h1⟩ := iha st
      obtain ⟨nf2, h2⟩ := ihb (lower a st).2
      have hX : (lower b (lower a st).2).2.frags = st.frags ++ (nf1 ++ nf2) := by
        rw [h2, h1, List.append_assoc]
      exact ⟨_, append_chain hX _⟩
  | reinterpretN i a tgt iha =>
    intro st
    cases hl : st.memo.lookup i with
    | some p =>
      rw [lower, hl]
      exact ⟨[], by simp⟩
    | none =>
      rw [lower, hl, emit_frags]
      obtain ⟨nf1, h1⟩ := iha st
      exact ⟨_, append_chain h1 _⟩
  | translateN i a tgt iha =>
    intro st
    cases hl : st.memo.lookup i with
    | some p =>
      rw [lower, hl]
      exact ⟨[], by simp⟩
    | none =>
      rw [lower, hl, emit_frags]
      obtain ⟨nf1, h1⟩ := iha st
      exact ⟨_, append_chain h1 _⟩

/-- C6: statements fail atomically.  A failing statement leaves the builder
exactly as it was, so a subsequent statement behaves as if the failing one had
never been issued; a succeeding statement only appends to the previously
compiled fragments and edges, leaving them intact. -/
theorem statement_atomicity_spec (b : Builder) (st st2 : Stmt) (e : SpaError)
    (hfail : (issueStmt b st).2 = some e) :
    (issueStmt b st).1 = b ∧
    issueStmt (issueStmt b st).1 st2 = issueStmt b st2 ∧
    (∀ st' b2, issueStmt b st' = (b2, none) →
      (∃ nf, b2.lstate.frags = b.lstate.frags ++ nf) ∧
      ∃ ne, b2.edges = b.edges ++ ne) := by
  have hunch : (issueStmt b st).1 = b := by
    obtain ⟨e', s'⟩ := st
    cases hI : inferType e' with
    | error err => rw [issueStmt_typeError b e' s' err hI]
    | ok t =>
      cases t with
      | scalarT => rw [issueStmt_scalarSink b e' s' hI]
      | vecT v =>
        by_cases hv : v = s'.vocab
        · rw [issueStmt_ok b e' s' v hI hv] at hfail
          cases hfail
        · rw [issueStmt_sinkMismatch b e' s' v hI hv]
  refine ⟨hunch, by rw [hunch], ?_⟩
  intro st' b2 hok
  obtain ⟨e', s'⟩ := st'
  cases hI : inferType e' with
  | error err =>
    rw [issueStmt_typeError b e' s' err hI] at hok
    cases hok
  | ok t =>
    cases t with
    | scalarT =>
      rw [issueStmt_scalarSink b e' s' hI] at hok
      cases hok
    | vecT v =>
      by_cases hv : v = s'.vocab
      · rw [issueStmt_ok b e' s' v hI hv] at hok
        obtain ⟨rfl, -⟩ : b2 = _ ∧ (none : Option SpaError) = none :=
          ⟨(congrArg Prod.fst hok).symm, rfl⟩
        constructor
        · exact lower_frags_append e' b.lstate
        · exact ⟨[((lower e' b.lstate).1, s'.sid)], rfl⟩
      · rw [issueStmt_sinkMismatch b e' s' v hI hv] at hok
        cases hok

/-- C1: `Sum`, `Product` and `DotProduct` over two vector operands carrying
distinct Vocabulary objects (even of equal dimension) fail type inference with
`VocabularyMismatchError` naming both vocabularies, and issuing such an
expression produces no graph fragment: the builder is left unchanged. -/
theorem vocabulary_mismatch_spec (a b : Node) (v1 v2 : Vocab) (i : Nat)
    (bd : Builder) (s : Sink)
    (ha : inferType a = .ok (.vecT v1)) (hb : inferType b = .ok (.vecT v2))
    (hne : v1 ≠ v2) :
    inferType (.sumN i a b) = .error (.vocabularyMismatch v1 v2) ∧
    inferType (.productN i a b) = .error (.vocabularyMismatch v1 v2) ∧
    inferType (.dotN i a b) = .error (.vocabularyMismatch v1 v2) ∧
    issueStmt bd (.route (.sumN i a b) s) = (bd, some (.vocabularyMismatch v1 v2)) ∧
    issueStmt bd (.route (.productN i a b) s) = (bd, some (.vocabularyMismatch v1 v2)) ∧
    issueStmt bd (.route (.dotN i a b) s) = (bd, some (.vocabularyMismatch v1 v2)) := by
  have hsum : inferType (.sumN i a b) = .error (.vocabularyMismatch v1 v2) := by
    rw [inferType, ha, bind_ok_spa, hb, bind_ok_spa]
    show (if v1 = v2 then (Except.ok (SpaType.vecT v1) : Except SpaError SpaType)
      else .error (.vocabularyMismatch v1 v2)) = _
    rw [if_neg hne]
  have hprod : inferType (.productN i a b) = .error (.vocabularyMismatch v1 v2) := by
    rw [inferType, ha, bind_ok_spa, hb, bind_ok_spa]
    show (if v1 = v2 then (Except.ok (SpaType.vecT v1) : Except SpaError SpaType)
      else .error (.vocabularyMismatch v1 v2)) = _
    rw [if_neg hne]
  have hdot : inferType (.dotN i a b) = .error (.vocabularyMismatch v1 v2) := by
    rw [inferType, ha, bind_ok_spa, hb, bind_ok_spa]
    show (if v1 = v2 then (Except.ok SpaType.scalarT : Except SpaError SpaType)
      else .error (.vocabularyMismatch v1 v2)) = _
    rw [if_neg hne]
  exact ⟨hsum, hprod, hdot,
    issueStmt_typeError bd _ s _ hsum,
    issueStmt_typeError bd _ s _ hprod,
    issueStmt_typeError bd _ s _ hdot⟩

/-- Witness for C1: two ports over distinct vocabulary objects of the same
dimension. -/
theorem vocabulary_mismatch_spec_witness :
    inferType (.sumN 2 (.port 0 ⟨0, 4, true, 0, [], 0⟩) (.port 1 ⟨1, 4, true, 0, [], 0⟩)) =
      .error (.vocabularyMismatch ⟨0, 4, true, 0, [], 0⟩ ⟨1, 4, true, 0, [], 0⟩) ∧
    inferType (.productN 2 (.port 0 ⟨0, 4, true, 0, [], 0⟩) (.port 1 ⟨1, 4, true, 0, [], 0⟩)) =
      .error (.vocabularyMismatch ⟨0, 4, true, 0, [], 0⟩ ⟨1, 4, true, 0, [], 0⟩) ∧
    inferType (.dotN 2 (.port 0 ⟨0, 4, true, 0, [], 0⟩) (.port 1 ⟨1, 4, true, 0, [], 0⟩)) =
      .error (.vocabularyMismatch ⟨0, 4, true, 0, [], 0⟩ ⟨1, 4, true, 0, [], 0⟩) ∧
    issueStmt initBuilder (.route
        (.sumN 2 (.port 0 ⟨0, 4, true, 0, [], 0⟩) (.port 1 ⟨1, 4, true, 0, [], 0⟩))
        ⟨0, ⟨0, 4, true, 0, [], 0⟩⟩) =
      (initBuilder, some (.vocabularyMismatch ⟨0, 4, true, 0, [], 0⟩ ⟨1, 4, true, 0, [], 0⟩)) ∧
    issueStmt initBuilder (.route
        (.productN 2 (.port 0 ⟨0, 4, true, 0, [], 0⟩) (.port 1 ⟨1, 4, true, 0, [], 0⟩))
        ⟨0, ⟨0, 4, true, 0, [], 0⟩⟩) =
      (initBuilder, some (.vocabularyMismatch ⟨0, 4, true, 0, [], 0⟩ ⟨1, 4, true, 0, [], 0⟩)) ∧
    issueStmt initBuilder (.route
        (.dotN 2 (.port 0 ⟨0, 4, true, 0, [], 0⟩) (.port 1 ⟨1, 4, true, 0, [], 0⟩))
        ⟨0, ⟨0, 4, true, 0, [], 0⟩⟩) =
      (initBuilder, some (.vocabularyMismatch ⟨0, 4, true, 0, [], 0⟩ ⟨1, 4, true, 0, [], 0⟩)) :=
  vocabulary_mismatch_spec
    (.port 0 ⟨0, 4, true, 0, [], 0⟩) (.port 1 ⟨1, 4, true, 0, [], 0⟩)
    ⟨0, 4, true, 0, [], 0⟩ ⟨1, 4, true, 0, [], 0⟩ 2 initBuilder
    ⟨0, ⟨0, 4, true, 0, [], 0⟩⟩ rfl rfl (by decide)

/-- Witness for C6: a vocabulary-mismatched routing statement fails and leaves
the builder untouched, and the subsequent behaviour is unaffected. -/
theorem statement_atomicity_spec_witness :
    (issueStmt initBuilder (.route
        (.sumN 2 (.port 0 ⟨0, 4, true, 0, [], 0⟩) (.port 1 ⟨1, 4, true, 0, [], 0⟩))
        ⟨0, ⟨0, 4, true, 0, [], 0⟩⟩)).1 = initBuilder ∧
    issueStmt (issueStmt initBuilder (.route
        (.sumN 2 (.port 0 ⟨0, 4, true, 0, [], 0⟩) (.port 1 ⟨1, 4, true, 0, [], 0⟩))
        ⟨0, ⟨0, 4, true, 0, [], 0⟩⟩)).1
        (.route (.port 3 ⟨0, 4, true, 0, [], 0⟩) ⟨1, ⟨0, 4, true, 0, [], 0⟩⟩) =
      issueStmt initBuilder
        (.route (.port 3 ⟨0, 4, true, 0, [], 0⟩) ⟨1, ⟨0, 4, true, 0, [], 0⟩⟩) ∧
    (∀ st' b2, issueStmt initBuilder st' = (b2, none) →
      (∃ nf, b2.lstate.frags = initBuilder.lstate.frags ++ nf) ∧
      ∃ ne, b2.edges = initBuilder.edges ++ ne) :=
  statement_atomicity_spec initBuilder
    (.route (.sumN 2 (.port 0 ⟨0, 4, true, 0, [], 0⟩) (.port 1 ⟨1, 4, true, 0, [], 0⟩))
      ⟨0, ⟨0, 4, true, 0, [], 0⟩⟩)
    (.route (.port 3 ⟨0, 4, true, 0, [], 0⟩) ⟨1, ⟨0, 4, true, 0, [], 0⟩⟩)
    (.vocabularyMismatch ⟨0, 4, true, 0, [], 0⟩ ⟨1, 4, true, 0, [], 0⟩)
    (by decide)

/-- C9: closing with zero rules raises `EmptyActionSelectionError`; closing
with a duplicated explicit name raises `DuplicateNameError`; otherwise closing
succeeds and assigns each rule its stable 0-based index in registration
order. -/
theorem action_selection_close_spec (rules : List ARule) :
    (rules = [] → closeSel rules = .error .emptyActionSelection) ∧
    (¬ (explicitNames rules).Nodup → ∃ nm, closeSel rules = .error (.duplicateName nm)) ∧
    (rules ≠ [] → (explicitNames rules).Nodup →
      ∃ l, closeSel rules = .ok l ∧
        l.map (fun p => p.1) = List.range rules.length ∧
        l.map (fun p => p.2.2) = rules) := by
  refine ⟨?_, ?_, ?_⟩
  · rintro rfl
    rfl
  · intro hnd
    have hne : rules ≠ [] := by
      rintro rfl
      exact hnd List.nodup_nil
    have hempty : rules.isEmpty = false := by
      cases rules with
      | nil => exact absurd rfl hne
      | cons r rs => rfl
    refine ⟨firstDupName (explicitNames rules), ?_⟩
    rw [closeSel, hempty]
    simp only [Bool.false_eq_true, if_false]
    rw [if_neg hnd]
  · intro hne hnd
    have hempty : rules.isEmpty = false := by
      cases rules with
      | nil => exact absurd rfl hne
      | cons r rs => rfl
    refine ⟨rules.enum.map (fun p => (p.1, p.2.rname.getD (autoName p.1), p.2)), ?_, ?_, ?_⟩
    · rw [closeSel, hempty]
      simp only [Bool.false_eq_true, if_false]
      rw [if_pos hnd]
    · rw [List.map_map]
      exact List.enum_map_fst rules
    · rw [List.map_map]
      exact List.enum_map_snd rules

/-- Witness for C9: the empty selection, a selection with a duplicated explicit
name, and a well-formed two-rule selection. -/
theorem action_selection_close_spec_witness :
    closeSel [] = .error .emptyActionSelection ∧
    (∃ nm, closeSel [⟨some "go", 1, []⟩, ⟨some "go", 0, []⟩] =
      .error (.duplicateName nm)) ∧
    (∃ l, closeSel [⟨some "go", 1, []⟩, ⟨none, 0, []⟩] = .ok l ∧
      l.map (fun p => p.1) =
        List.range ([(⟨some "go", 1, []⟩ : ARule), ⟨none, 0, []⟩].length) ∧
      l.map (fun p => p.2.2) = [(⟨some "go", 1, []⟩ : ARule), ⟨none, 0, []⟩]) :=
  ⟨(action_selection_close_spec []).1 rfl,
   (action_selection_close_spec [⟨some "go", 1, []⟩, ⟨some "go", 0, []⟩]).2.1 (by decide),
   (action_selection_close_spec [⟨some "go", 1, []⟩, ⟨none, 0, []⟩]).2.2
     (by decide) (by decide)⟩

theorem vscale_one (v : List ℚ) : vscale 1 v = v := by
  simp [vscale]

theorem vadd_replicate_zero (v : List ℚ) (d : Nat) (h : v.length = d) :
    vadd (List.replicate d 0) v = v := by
  induction v generalizing d with
  | nil => subst h; rfl
  | cons x xs ih =>
    subst h
    show vadd (List.replicate (xs.length + 1) 0) (x :: xs) = x :: xs
    rw [List.replicate_succ]
    show (0 + x) :: vadd (List.replicate xs.length 0) xs = x :: xs
    rw [zero_add, ih xs.length rfl]

theorem vadd_vscale_zero (w v : List ℚ) (h : w.length = v.length) :
    vadd w (vscale 0 v) = w := by
  induction w generalizing v with
  | nil => rfl
  | cons x xs ih =>
    cases v with
    | nil => cases h
    | cons y ys =>
      show (x + 0 * y) :: vadd xs (vscale 0 ys) = x :: xs
      rw [zero_mul, add_zero, ih ys (by simpa using h)]

/-- C5: for an `ActionSelection` of exactly two rules with constant utilities
`1` and `0` writing distinct constant effects to the same sink, the sink
output equals the winning rule's effect, and (for a unit-norm winning effect,
as semantic pointers are) its similarity to that effect exceeds `0.9`. -/
theorem action_dominance_spec (n1 n2 : Option String) (sid d : Nat) (e1 e2 : List ℚ)
    (h1 : e1.length = d) (h2 : e2.length = d) (hne : e1 ≠ e2)
    (hnorm : vdot e1 e1 > 9/10) :
    sinkOutput [⟨n1, 1, [(sid, e1)]⟩, ⟨n2, 0, [(sid, e2)]⟩] sid d = e1 ∧
    vdot (sinkOutput [⟨n1, 1, [(sid, e1)]⟩, ⟨n2, 0, [(sid, e2)]⟩] sid d) e1 > 9/10 := by
  have hg0 : gateQ [1, 0] 0 = 1 := by
    rw [gateQ, if_pos]
    intro j hj
    have hj2 : j < 2 := by simpa using List.mem_range.mp hj
    interval_cases j
    · exact Or.inl rfl
    · refine Or.inr ?_
      show (0 : ℚ) < 1
      norm_num
  have hg1 : gateQ [1, 0] 1 = 0 := by
    rw [gateQ, if_neg]
    intro hall
    rcases hall 0 (List.mem_range.mpr (by norm_num)) with h | h
    · exact absurd h (by decide)
    · simp only [List.getD_cons_zero, List.getD_cons_succ] at h
      exact absurd h (by norm_num)
  have hred : sinkOutput [⟨n1, 1, [(sid, e1)]⟩, ⟨n2, 0, [(sid, e2)]⟩] sid d =
      vadd (vadd (List.replicate d 0) (vscale (gateQ [1, 0] 0) e1))
        (vscale (gateQ [1, 0] 1) e2) := by
    rw [sinkOutput]
    simp only [List.enum, List.enumFrom, List.foldl, List.map, List.lookup_cons,
      beq_self_eq_true, if_true]
  have hout : sinkOutput [⟨n1, 1, [(sid, e1)]⟩, ⟨n2, 0, [(sid, e2)]⟩] sid d = e1 := by
    rw [hred, hg0, hg1, vscale_one, vadd_replicate_zero e1 d h1,
      vadd_vscale_zero e1 e2 (h1.trans h2.symm)]
  exact ⟨hout, by rw [hout]; exact hnorm⟩

/-- Witness for C5 at dimension 2 with unit effects. -/
theorem action_dominance_spec_witness :
    sinkOutput [⟨some "go", 1, [(0, [1, 0])]⟩, ⟨some "stay", 0, [(0, [0, 1])]⟩] 0 2 = [1, 0] ∧
    vdot (sinkOutput [⟨some "go", 1, [(0, [1, 0])]⟩, ⟨some "stay", 0, [(0, [0, 1])]⟩] 0 2)
      [1, 0] > 9/10 :=
  action_dominance_spec (some "go") (some "stay") 0 2 [1, 0] [0, 1] rfl rfl
    (by simp) (by norm_num [vdot])

theorem pow_mod_eq {z : ℂ} {d : Nat} (hz : z ^ d = 1) (m : Nat) :
    z ^ (m % d) = z ^ m := by
  conv_rhs => rw [← Nat.mod_add_div m d]
  rw [pow_add, pow_mul, hz, one_pow, mul_one]

theorem pow_val_add (d : Nat) [NeZero d] {z : ℂ} (hz : z ^ d = 1) (i j : ZMod d) :
    z ^ (i + j).val = z ^ i.val * z ^ j.val := by
  rw [ZMod.val_add, pow_mod_eq hz, pow_add]

theorem abs_eq_one_of_pow_eq_one {z : ℂ} {d : Nat} (hd : d ≠ 0) (hz : z ^ d = 1) :
    Complex.abs z = 1 := by
  have h1 : Complex.abs z ^ d = 1 := by
    rw [← map_pow, hz, map_one]
  by_contra hne2
  rcases lt_or_gt_of_ne hne2 with hlt | hgt
  · have := pow_lt_one₀ (Complex.abs.nonneg z) hlt hd
    rw [h1] at this
    exact lt_irrefl 1 this
  · have := one_lt_pow₀ hgt hd
    rw [h1] at this
    exact lt_irrefl 1 this

theorem pow_val_neg_mul (d : Nat) [NeZero d] {z : ℂ} (hz : z ^ d = 1) (j : ZMod d) :
    z ^ (-j).val * z ^ j.val = 1 := by
  rw [← pow_val_add d hz (-j) j, neg_add_cancel, ZMod.val_zero, pow_zero]

theorem conj_eq_inv_of_abs_one {w : ℂ} (hw : Complex.abs w = 1) :
    starRingEnd ℂ w = w⁻¹ := by
  have hmul : w * starRingEnd ℂ w = 1 := by
    rw [Complex.mul_conj]
    norm_cast
    rw [Complex.normSq_eq_abs, hw]
    norm_num
  exact (inv_eq_of_mul_eq_one_right hmul).symm

theorem evalPtr_convBind (d : Nat) [NeZero d] (a b : ZMod d → ℝ) {z : ℂ}
    (hz : z ^ d = 1) :
    evalPtr d (convBind d a b) z = evalPtr d a z * evalPtr d b z := by
  unfold evalPtr convBind
  push_cast
  rw [Finset.sum_mul_sum]
  have key : ∀ i : ZMod d,
      ∑ j : ZMod d, (a i : ℂ) * (b j : ℂ) * z ^ ((i + j).val) =
      ∑ k : ZMod d, (a i : ℂ) * (b (k - i) : ℂ) * z ^ (ZMod.val k) := by
    intro i
    refine Fintype.sum_equiv (Equiv.addLeft i) _ _ ?_
    intro j
    have h1 : (Equiv.addLeft i) j = i + j := rfl
    rw [h1, add_sub_cancel_left]
  calc ∑ k : ZMod d, (∑ i : ZMod d, (a i : ℂ) * (b (k - i) : ℂ)) * z ^ (ZMod.val k)
      = ∑ k : ZMod d, ∑ i : ZMod d, (a i : ℂ) * (b (k - i) : ℂ) * z ^ (ZMod.val k) := by
        refine Finset.sum_congr rfl fun k _ => ?_
        rw [Finset.sum_mul]
    _ = ∑ i : ZMod d, ∑ k : ZMod d, (a i : ℂ) * (b (k - i) : ℂ) * z ^ (ZMod.val k) :=
        Finset.sum_comm
    _ = ∑ i : ZMod d, ∑ j : ZMod d, (a i : ℂ) * (b j : ℂ) * z ^ ((i + j).val) := by
        refine Finset.sum_congr rfl fun i _ => ?_
        rw [key i]
    _ = ∑ i : ZMod d, ∑ j : ZMod d,
          ((a i : ℂ) * z ^ (ZMod.val i)) * ((b j : ℂ) * z ^ (ZMod.val j)) := by
        refine Finset.sum_congr rfl fun i _ => Finset.sum_congr rfl fun j _ => ?_
        rw [pow_val_add d hz i j]
        ring

theorem evalPtr_approxInvert (d : Nat) [NeZero d] (a : ZMod d → ℝ) {z : ℂ}
    (hz : z ^ d = 1) :
    evalPtr d (approxInvertPtr d a) z = starRingEnd ℂ (evalPtr d a z) := by
  unfold evalPtr approxInvertPtr
  rw [map_sum]
  refine (Fintype.sum_equiv (Equiv.neg (ZMod d)) _ _ ?_).symm
  intro j
  have h1 : (Equiv.neg (ZMod d)) j = -j := rfl
  rw [h1, neg_neg]
  rw [map_mul, Complex.conj_ofReal]
  congr 1
  have habs : Complex.abs (z ^ ZMod.val j) = 1 := by
    rw [map_pow, abs_eq_one_of_pow_eq_one (NeZero.ne d) hz, one_pow]
  rw [conj_eq_inv_of_abs_one habs]
  have hmul : z ^ ZMod.val j * z ^ (-j).val = 1 := by
    rw [mul_comm]
    exact pow_val_neg_mul d hz j
  exact inv_eq_of_mul_eq_one_right hmul

theorem evalPtr_identity (d : Nat) [NeZero d] (z : ℂ) :
    evalPtr d (identityPtr d) z = 1 := by
  unfold evalPtr identityPtr
  rw [Finset.sum_eq_single (0 : ZMod d)]
  · simp [ZMod.val_zero]
  · intro k _ hk
    simp [hk]
  · intro h
    exact absurd (Finset.mem_univ _) h

theorem evalPtr_zero_of_roots (d : Nat) [NeZero d] (c : ZMod d → ℝ)
    (h : ∀ z : ℂ, z ^ d = 1 → evalPtr d c z = 0) : ∀ k, c k = 0 := by
  have hQeval : ∀ z : ℂ,
      (∑ k : ZMod d, Polynomial.C ((c k : ℂ)) * Polynomial.X ^ (ZMod.val k)).eval z =
        evalPtr d c z := by
    intro z
    rw [Polynomial.eval_finset_sum]
    unfold evalPtr
    refine Finset.sum_congr rfl fun k _ => ?_
    rw [Polynomial.eval_mul, Polynomial.eval_C, Polynomial.eval_pow, Polynomial.eval_X]
  have hdpos : 0 < d := Nat.pos_of_ne_zero (NeZero.ne d)
  have hdeg : (∑ k : ZMod d, Polynomial.C ((c k : ℂ)) * Polynomial.X ^ (ZMod.val k)).natDegree
      < d := by
    have hle : (∑ k : ZMod d,
        Polynomial.C ((c k : ℂ)) * Polynomial.X ^ (ZMod.val k)).natDegree ≤ d - 1 := by
      refine Polynomial.natDegree_sum_le_of_forall_le _ _ fun k _ => ?_
      exact le_trans (Polynomial.natDegree_C_mul_X_pow_le _ _)
        (Nat.le_pred_of_lt (ZMod.val_lt k))
    omega
  obtain ⟨ζ, hprim⟩ : ∃ ζ : ℂ, IsPrimitiveRoot ζ d :=
    ⟨_, Complex.isPrimitiveRoot_exp d (NeZero.ne d)⟩
  have hinj : Function.Injective (fun k : ZMod d => ζ ^ (ZMod.val k)) := by
    intro k l hkl
    exact ZMod.val_injective d (hprim.pow_inj (ZMod.val_lt k) (ZMod.val_lt l) hkl)
  have hroots : ∀ k : ZMod d,
      (∑ k' : ZMod d, Polynomial.C ((c k' : ℂ)) * Polynomial.X ^ (ZMod.val k')).eval
        (ζ ^ (ZMod.val k)) = 0 := by
    intro k
    rw [hQeval]
    refine h _ ?_
    rw [← pow_mul, mul_comm, pow_mul, hprim.pow_eq_one, one_pow]
  have hQ0 : (∑ k : ZMod d, Polynomial.C ((c k : ℂ)) * Polynomial.X ^ (ZMod.val k)) = 0 := by
    refine Polynomial.eq_zero_of_natDegree_lt_card_of_eval_eq_zero _ hinj hroots ?_
    rw [ZMod.card]
    exact hdeg
  intro k
  have hcoeff : (∑ k' : ZMod d,
      Polynomial.C ((c k' : ℂ)) * Polynomial.X ^ (ZMod.val k')).coeff (ZMod.val k) =
      (c k : ℂ) := by
    rw [Polynomial.finset_sum_coeff]
    rw [Finset.sum_eq_single k]
    · rw [Polynomial.coeff_C_mul, Polynomial.coeff_X_pow, if_pos rfl, mul_one]
    · intro l _ hlk
      rw [Polynomial.coeff_C_mul, Polynomial.coeff_X_pow, if_neg, mul_zero]
      intro hc
      exact hlk (ZMod.val_injective d hc.symm)
    · intro hk'
      exact absurd (Finset.mem_univ _) hk'
  rw [hQ0, Polynomial.coeff_zero] at hcoeff
  exact_mod_cast hcoeff.symm

/-- C7: for the convolution algebra, `approximate_invert` reverses all
coefficients except index 0 (`inv[0] = a[0]`, `inv[i] = a[d - i]`), and it is
an exact inverse under `bind` exactly when the pointer is unitary (all
transform-domain magnitudes equal to 1). -/
theorem approx_invert_spec (d : Nat) [NeZero d] (a : ZMod d → ℝ) :
    (approxInvertPtr d a 0 = a 0 ∧
      ∀ i : Nat, 1 ≤ i → i < d →
        approxInvertPtr d a (i : ZMod d) = a ((d - i : Nat) : ZMod d)) ∧
    (convBind d a (approxInvertPtr d a) = identityPtr d ↔ IsUnitaryPtr d a) := by
  refine ⟨⟨?_, ?_⟩, ?_, ?_⟩
  · show a (-0) = a 0
    rw [neg_zero]
  · intro i h1 hi
    show a (-(i : ZMod d)) = a ((d - i : Nat) : ZMod d)
    congr 1
    have hcast : ((d - i : Nat) : ZMod d) = ((d : Nat) : ZMod d) - (i : ZMod d) := by
      rw [Nat.cast_sub (le_of_lt hi)]
    rw [hcast, ZMod.natCast_self, zero_sub]
  · intro hbind z hz
    have h1 : evalPtr d (convBind d a (approxInvertPtr d a)) z = 1 := by
      rw [hbind, evalPtr_identity]
    rw [evalPtr_convBind d a _ hz, evalPtr_approxInvert d a hz] at h1
    have h2 : Complex.abs (evalPtr d a z) ^ 2 = 1 := by
      have h3 := congrArg Complex.abs h1
      rwa [map_mul, Complex.abs_conj, map_one, ← sq] at h3
    have h4 := Complex.abs.nonneg (evalPtr d a z)
    nlinarith [h2, h4, sq_nonneg (Complex.abs (evalPtr d a z) - 1),
      sq_nonneg (Complex.abs (evalPtr d a z) + 1)]
  · intro huni
    have hall : ∀ z : ℂ, z ^ d = 1 →
        evalPtr d (fun k => convBind d a (approxInvertPtr d a) k - identityPtr d k) z = 0 := by
      intro z hz
      have hsub : evalPtr d (fun k => convBind d a (approxInvertPtr d a) k - identityPtr d k) z =
          evalPtr d (convBind d a (approxInvertPtr d a)) z - evalPtr d (identityPtr d) z := by
        unfold evalPtr
        rw [← Finset.sum_sub_distrib]
        refine Finset.sum_congr rfl fun k _ => ?_
        push_cast
        ring
      rw [hsub, evalPtr_convBind d _ _ hz, evalPtr_approxInvert d a hz, evalPtr_identity,
        Complex.mul_conj]
      have habs := huni z hz
      rw [Complex.normSq_eq_abs, habs]
      norm_num
    have hzero := evalPtr_zero_of_roots d _ hall
    funext k
    exact sub_eq_zero.mp (hzero k)

/-- Witness for C7 at dimension 1 with the constant-one pointer. -/
theorem approx_invert_spec_witness :
    (approxInvertPtr 1 (fun _ => (1 : ℝ)) 0 = (fun _ => (1 : ℝ)) 0 ∧
      ∀ i : Nat, 1 ≤ i → i < 1 →
        approxInvertPtr 1 (fun _ => (1 : ℝ)) (i : ZMod 1) =
          (fun _ => (1 : ℝ)) ((1 - i : Nat) : ZMod 1)) ∧
    (convBind 1 (fun _ => (1 : ℝ)) (approxInvertPtr 1 (fun _ => (1 : ℝ))) = identityPtr 1 ↔
      IsUnitaryPtr 1 (fun _ => (1 : ℝ))) :=
  approx_invert_spec 1 (fun _ => (1 : ℝ))

end NengoSpa
